import Mathlib

/-!
Verification development for the import-sorting plugin
(`eslint-plugin-imsort`).

Shallow embedding conventions:

* JavaScript strings are modelled as lists of character codes
  (`Str := List Nat`); concrete literals are written through `str`,
  which takes the code points of a Lean string literal.  All inputs of
  interest (module specifiers, identifiers, statement text) are ASCII.
* `String.prototype.localeCompare(_, undefined, {numeric: true, ...})`
  is modelled by a two-level natural-order comparison: a primary pass
  over the lower-cased string in which maximal digit runs compare by
  numeric value, followed (for the case-sensitive sensitivities
  `variant` and `case`, which coincide on the ASCII range) by a
  case-level pass in which lower case sorts before upper case.  The
  `base` sensitivity is the primary pass alone.
* `Array.prototype.sort(cmp)` is stable; it is modelled by Mathlib's
  stable `List.insertionSort` with the relation `cmp a b ≠ .gt`.
* Fallible code returns `Except String _`.
-/

/-- Strings as lists of character codes. -/
abbrev Str := List Nat

/-- Character codes of a Lean string literal. -/
def str (s : String) : Str := s.toList.map Char.toNat

/-- ASCII digit test (JS `\d`, `[0-9]`). -/
def isDigitN (n : Nat) : Bool := 48 ≤ n && n ≤ 57

/-- ASCII letter test (`[a-zA-Z]`). -/
def isLetterN (n : Nat) : Bool := (65 ≤ n && n ≤ 90) || (97 ≤ n && n ≤ 122)

/-- Word characters plus dash (`[a-zA-Z0-9_-]`, the same set as JS `[\w-]`). -/
def isWordDashN (n : Nat) : Bool := isLetterN n || isDigitN n || n == 95 || n == 45

/-- ASCII whitespace (JS `\s` restricted to the ASCII range). -/
def isWsN (n : Nat) : Bool := n == 32 || n == 9 || n == 10 || n == 13 || n == 12 || n == 11

/-- Lower-casing of one character code (JS `toLowerCase` on ASCII). -/
def lowerN (n : Nat) : Nat := if 65 ≤ n ∧ n ≤ 90 then n + 32 else n

/-- Upper-casing of one character code (JS `toUpperCase` on ASCII). -/
def upperN (n : Nat) : Nat := if 97 ≤ n ∧ n ≤ 122 then n - 32 else n

/-- The uppercase test used by the identifier sorter:
`c === c.toUpperCase() && c !== c.toLowerCase()`. -/
def isUpperN (n : Nat) : Bool := decide (upperN n = n ∧ lowerN n ≠ n)

/-- Lower-casing of a whole string. -/
def lowerStr (s : Str) : Str := s.map lowerN

/-- Total-order comparison on `Nat`, spelled out for easy `omega` reasoning. -/
def cmpN (a b : Nat) : Ordering :=
  if a < b then .lt else if b < a then .gt else .eq

/-- Lexicographic composition of two comparators. -/
def lex2 {α : Type} (c d : α → α → Ordering) (a b : α) : Ordering :=
  match c a b with
  | .lt => .lt
  | .gt => .gt
  | .eq => d a b

/-- Generic lexicographic list comparison from an element comparator. -/
def cmpListBy {α : Type} (c : α → α → Ordering) : List α → List α → Ordering
  | [], [] => .eq
  | [], _ :: _ => .lt
  | _ :: _, [] => .gt
  | a :: as, b :: bs =>
    match c a b with
    | .lt => .lt
    | .gt => .gt
    | .eq => cmpListBy c as bs

/-- Collation tokens for the numeric-aware primary pass: a maximal digit
run (with its numeric value and its raw digits) or a single non-digit
character code. -/
inductive Tok : Type
  | num (v : Nat) (raw : List Nat) : Tok
  | chr (c : Nat) : Tok
deriving DecidableEq

/-- Numeric value of a digit run. -/
def digitsVal (ds : List Nat) : Nat := ds.foldl (fun acc d => acc * 10 + (d - 48)) 0

/-- Tokenize a string into maximal digit runs and single characters
(structural right fold: a leading digit merges into a digit run that
starts immediately after it). -/
def tokenize : Str → List Tok
  | [] => []
  | c :: rest =>
    let ts := tokenize rest
    if isDigitN c then
      match ts with
      | Tok.num _ raw :: ts2 => Tok.num (digitsVal (c :: raw)) (c :: raw) :: ts2
      | _ => Tok.num (digitsVal [c]) [c] :: ts
    else
      Tok.chr c :: ts

/-- Token comparison: digit runs compare numerically (raw digits as a
tie-break); a digit run compares to a non-digit character as the digit
class does (digits sit between the low ASCII punctuation and the
letters). -/
def cmpTok : Tok → Tok → Ordering
  | Tok.num v r, Tok.num w s =>
    match cmpN v w with
    | .lt => .lt
    | .gt => .gt
    | .eq => cmpListBy cmpN r s
  | Tok.num _ _, Tok.chr c => if c < 48 then .gt else .lt
  | Tok.chr c, Tok.num _ _ => if c < 48 then .lt else .gt
  | Tok.chr c, Tok.chr d => cmpN c d

/-- Primary (case-insensitive, numeric-aware) pass of the
`localeCompare` model. -/
def primaryCmp (a b : Str) : Ordering :=
  cmpListBy cmpTok (tokenize (lowerStr a)) (tokenize (lowerStr b))

/-- Case-level pass: at the first position whose characters differ in
case, lower case sorts before upper case. -/
def caseCmp (a b : Str) : Ordering :=
  cmpListBy (fun c d => cmpN (if isUpperN c then 1 else 0) (if isUpperN d then 1 else 0)) a b

/-- Model of `a.localeCompare(b, undefined, {numeric: true, sensitivity: s})`
for the case-sensitive sensitivities `variant` and `case` (identical on
the ASCII range): primary pass, then case level. -/
def localeCmpVariant (a b : Str) : Ordering := lex2 primaryCmp caseCmp a b

/-- Model of the same comparison with `sensitivity: 'base'`
(case-insensitive). -/
def localeCmpBase (a b : Str) : Ordering := primaryCmp a b

/-- Syntactic kind of one import statement (`ImportType` in
`src/types.ts`). -/
inductive ImportType : Type
  | sideEffect
  | namespaceImport
  | defaultImport
  | named
deriving DecidableEq

/-- One imported binding (`ImportIdentifier` in `src/types.ts`): the
imported name, the optional local alias, and the optional per-binding
type-only marker (`isTypeOnly?: boolean`, read through `?? false` /
`=== true` by the code). -/
structure ImportIdentifier : Type where
  imported : Str
  localName : Option Str
  isTypeOnly : Option Bool
deriving DecidableEq

/-- One normalized import record (`ImportNode` in `src/types.ts`); the
`line` field is omitted (never read by the logic under verification)
and `text` carries the original statement text used for
format-preference detection. -/
structure ImportNode : Type where
  source : Str
  text : Str
  type : ImportType
  identifiers : List ImportIdentifier
  isTypeOnly : Bool
deriving DecidableEq

/-- Formatting preferences (`FormattingPreferences` in
`src/utils/types.ts`). -/
structure FormattingPreferences : Type where
  useSingleQuotes : Bool
  useTrailingComma : Bool
deriving DecidableEq

/-- Result of the specifier classifier (the tagged union returned by
`classifyImportGroup` in `classify-import-group.ts`). -/
inductive ImportGroupClassification : Type
  | runtimeNamespaced (ns : Str)
  | registryNamespaced (ns : Str)
  | genericNamespaced (ns : Str)
  | dollarAliased (aliasRoot : Str)
  | atAliased
  | tildeAliased (isRoot : Bool)
  | parentRelative (depth : Nat)
  | currentDirectory (depth : Nat) (isBareSlash : Bool)
  | bareImport (isScoped : Bool)
deriving DecidableEq

/-- Runtime namespaces (`RUNTIME_NAMESPACES`). -/
def RUNTIME_NAMESPACES : List Str :=
  [str "node", str "bun", str "deno", str "cloudflare", str "workerd", str "wrangler"]

/-- Registry namespaces (`REGISTRY_NAMESPACES`). -/
def REGISTRY_NAMESPACES : List Str :=
  [str "npm", str "jsr", str "esm", str "unpkg", str "cdn"]

/-- Number of leading `../` repetitions (the length of the match of
`^(\.\.\/)+` divided by three). -/
def parentDepthOf : Str → Nat
  | 46 :: 46 :: 47 :: rest => parentDepthOf rest + 1
  | _ => 0

/-- Test for `^[a-zA-Z][a-zA-Z0-9_-]*$`. -/
def isAlphaWordStr : Str → Bool
  | [] => false
  | c :: rest => isLetterN c && rest.all isWordDashN

/-- Helper for regexes of the shape `^(prefix char)(class run)(next char)`:
after the maximal run of `p`-characters in `s`, the next character is
`c` (faithful to greedy matching because `c` never satisfies `p`). -/
def afterRunComes (p : Nat → Bool) (c : Nat) (s : Str) : Bool :=
  decide ((s.dropWhile p).head? = some c)

/-- Classifier from `classify-import-group.ts` (`classifyImportGroup`):
a pure, total, first-match-wins classification of a module specifier. -/
def classifyImportGroup (source : Str) : ImportGroupClassification :=
  let colonIdx := source.findIdx (fun c => c == 58)
  let beforeColon := source.take colonIdx
  let ns := lowerStr beforeColon
  if colonIdx > 0 ∧ colonIdx < source.length ∧ RUNTIME_NAMESPACES.contains ns then
    .runtimeNamespaced ns
  else if colonIdx > 0 ∧ colonIdx < source.length ∧ REGISTRY_NAMESPACES.contains ns then
    .registryNamespaced ns
  else if colonIdx > 0 ∧ colonIdx < source.length ∧ isAlphaWordStr beforeColon then
    .genericNamespaced ns
  else if source.head? = some 36 ∧ afterRunComes isWordDashN 47 (source.drop 1) then
    .dollarAliased (36 :: (source.drop 1).takeWhile isWordDashN)
  else if (str "@/").isPrefixOf source then
    .atAliased
  else if (str "~/").isPrefixOf source then
    .tildeAliased true
  else if source.head? = some 126 ∧ (source.drop 1).takeWhile isWordDashN ≠ [] ∧
      afterRunComes isWordDashN 47 (source.drop 1) then
    .tildeAliased false
  else if parentDepthOf source > 0 then
    .parentRelative (parentDepthOf source)
  else if source = str ".." then
    .parentRelative 1
  else if (str "./").isPrefixOf source then
    .currentDirectory (source.count 47 - 1) (source = str "./")
  else
    .bareImport (source.head? = some 64)

/-- Priority function from `src/utils/get-import-group-priority.ts`
(`getImportGroupPriority`), the function `src/rule.ts` actually calls
to bucket imports into groups. -/
def getImportGroupPriority (source : Str) : Int :=
  let lowered := lowerStr source
  if (RUNTIME_NAMESPACES.map (fun n => n ++ [58])).any (fun p => p.isPrefixOf lowered) then 0
  else if (REGISTRY_NAMESPACES.map (fun n => n ++ [58])).any (fun p => p.isPrefixOf lowered) then 1
  else if (match source with
    | c :: rest => isLetterN c && afterRunComes isWordDashN 58 rest
    | [] => false) then 2
  else if ((str "@/").isPrefixOf source = true) ∨
      (source.head? = some 126 ∧ afterRunComes isWordDashN 47 (source.drop 1) = true) then 4
  else if (str "./").isPrefixOf source then 6
  else if parentDepthOf source > 0 then 5000 - (parentDepthOf source : Int)
  else if source = str ".." then 5001
  else 3

/-- Numeric group key from `src/utils/compare.ts` (`getGroupKey`),
derived from the classifier output. -/
def getGroupKey : ImportGroupClassification → Int
  | .runtimeNamespaced _ => 0
  | .registryNamespaced _ => 1
  | .genericNamespaced _ => 2
  | .bareImport _ => 3
  | .dollarAliased _ => 4
  | .tildeAliased isRoot => if isRoot then 5 else 4
  | .atAliased => 5
  | .parentRelative depth => 60 - (depth : Int)
  | .currentDirectory depth isBareSlash => if isBareSlash then 6 else 60 + (depth : Int)

example : classifyImportGroup (str "node:fs") = .runtimeNamespaced (str "node") := by decide
example : classifyImportGroup (str "$lib/stores") = .dollarAliased (str "$lib") := by decide
example : classifyImportGroup (str "@/utils") = .atAliased := by decide
example : classifyImportGroup (str "@angular/core") = .bareImport true := by decide
example : classifyImportGroup (str "~shared/types") = .tildeAliased false := by decide
example : classifyImportGroup (str "~/config") = .tildeAliased true := by decide
example : classifyImportGroup (str "../../x") = .parentRelative 2 := by decide
example : classifyImportGroup (str "./a/b") = .currentDirectory 1 false := by decide
example : classifyImportGroup (str "./") = .currentDirectory 0 true := by decide
example : classifyImportGroup (str "..") = .parentRelative 1 := by decide
example : classifyImportGroup (str "") = .bareImport false := by decide
example : classifyImportGroup (str ":") = .bareImport false := by decide
example : getImportGroupPriority (str "node:fs") = 0 := by decide
example : getImportGroupPriority (str "npm:lodash") = 1 := by decide
example : getImportGroupPriority (str "custom:module") = 2 := by decide
example : getImportGroupPriority (str "react") = 3 := by decide
example : getImportGroupPriority (str "@types/node") = 3 := by decide
example : getImportGroupPriority (str "@/lib/utils") = 4 := by decide
example : getImportGroupPriority (str "~shared/types") = 4 := by decide
example : getImportGroupPriority (str "./utils") = 6 := by decide
example : getImportGroupPriority (str "../utils") = 4999 := by decide
example : getImportGroupPriority (str "..") = 5001 := by decide
example : getImportGroupPriority (str "") = 3 := by decide
example : getImportGroupPriority (str "$lib/utils") = 3 := by decide

example : primaryCmp (str "item2") (str "item10") = .lt := by decide
example : localeCmpVariant (str "alpha") (str "Beta") = .lt := by decide
example : localeCmpVariant (str "Beta") (str "charlie") = .lt := by decide
example : localeCmpVariant (str "charlie") (str "Zeus") = .lt := by decide
example : localeCmpVariant (str "ab") (str "Aa") = .gt := by decide

/-- JavaScript `Array.prototype.sort(cmp)` (stable, ordered by
`cmp a b <= 0`), modelled by Mathlib's stable insertion sort. -/
def jsSort {α : Type} (cmp : α → α → Ordering) (l : List α) : List α :=
  List.insertionSort (fun a b => cmp a b ≠ Ordering.gt) l

/-- Comparator of the identifier sorter (`sortIdentifiers` in
`generate-import-statement.ts`, and identically in `sort.ts`): the
same-first-letter/different-case rule prioritizing upper case, falling
back to case-sensitive numeric-aware locale comparison
(`sensitivity: 'variant'` in the generator, `'case'` in `sort.ts`;
both map to `localeCmpVariant` on ASCII). -/
def identifierNameCmp (x y : Str) : Ordering :=
  match x, y with
  | xf :: _, yf :: _ =>
    if lowerN xf = lowerN yf ∧ xf ≠ yf then
      if isUpperN xf ∧ ¬(isUpperN yf) then .lt
      else if ¬(isUpperN xf) ∧ isUpperN yf then .gt
      else localeCmpVariant x y
    else localeCmpVariant x y
  | _, _ => localeCmpVariant x y

/-- Comparator applied to the `imported` fields of two bindings. -/
def sortIdentifiersCmp (a b : ImportIdentifier) : Ordering :=
  identifierNameCmp a.imported b.imported

/-- List-level identifier sorter (`sortIdentifiers` in `sort.ts`). -/
def sortIdentifiers (l : List ImportIdentifier) : List ImportIdentifier :=
  jsSort sortIdentifiersCmp l

/-- Sortedness check (`areIdentifiersSorted` in `sort.ts`): compares
the imported names against the names of the sorted copy. -/
def areIdentifiersSorted (l : List ImportIdentifier) : Bool :=
  if l.length ≤ 1 then true
  else decide (l.map ImportIdentifier.imported = (sortIdentifiers l).map ImportIdentifier.imported)

/-- Binding renderer (`formatIdentifier` in
`generate-import-statement.ts`): optional per-binding type marker
(suppressed on request) plus optional local alias. -/
def formatIdentifier (id : ImportIdentifier) (suppressTypeMarker : Bool) : Str :=
  (if ¬suppressTypeMarker ∧ id.isTypeOnly = some true then str "type " else []) ++
    (match id.localName with
      | none => id.imported
      | some l => id.imported ++ str " as " ++ l)

/-- Statement generator (`generateImportStatement` in
`generate-import-statement.ts`); throwing is modelled by
`Except.error`. -/
def generateImportStatement (importInfo : ImportNode) (preferences : FormattingPreferences) :
    Except String Str :=
  let tm : Str := if importInfo.isTypeOnly then str "type " else []
  let suppressIndividualTypes := importInfo.isTypeOnly
  let q : Nat := if preferences.useSingleQuotes then 39 else 34
  match importInfo.type with
  | .sideEffect =>
    .ok (str "import " ++ tm ++ [q] ++ importInfo.source ++ [q, 59])
  | .namespaceImport =>
    match importInfo.identifiers with
    | [] => .error "Namespace identifier is required"
    | id :: _ =>
      .ok (str "import " ++ tm ++ str "* as " ++ id.imported ++ str " from " ++
        [q] ++ importInfo.source ++ [q, 59])
  | .defaultImport =>
    match importInfo.identifiers with
    | [] => .error "Default identifier is required"
    | [id] =>
      .ok (str "import " ++ tm ++ formatIdentifier id suppressIndividualTypes ++
        str " from " ++ [q] ++ importInfo.source ++ [q, 59])
    | defaultId :: namedIds =>
      let sortedNamed := jsSort sortIdentifiersCmp namedIds
      .ok (str "import " ++ tm ++ formatIdentifier defaultId suppressIndividualTypes ++
        str ", \x7b " ++
        List.intercalate (str ", ")
          (sortedNamed.map (fun id => formatIdentifier id suppressIndividualTypes)) ++
        str " \x7d from " ++ [q] ++ importInfo.source ++ [q, 59])
  | .named =>
    let sortedIds := jsSort sortIdentifiersCmp importInfo.identifiers
    .ok (str "import " ++ tm ++ str "\x7b " ++
      List.intercalate (str ", ")
        (sortedIds.map (fun id => formatIdentifier id suppressIndividualTypes)) ++
      str " \x7d from " ++ [q] ++ importInfo.source ++ [q, 59])

/-- Kind priority used inside one group (`typeOrder` in
`sort-imports-in-group.ts`). -/
def typeOrderOf : ImportType → Nat
  | .sideEffect => 0
  | .namespaceImport => 1
  | .defaultImport => 2
  | .named => 3

/-- Strips a leading `type ` keyword for comparison purposes. -/
def stripTypeKw (s : Str) : Str :=
  if (str "type ").isPrefixOf s then s.drop 5 else s

/-- Comparator of `sortImportsInGroup` in `sort-imports-in-group.ts`:
kind priority, then the first imported name (falling back to the
source; `type `-stripped; case-insensitive numeric-aware), then the
source (case-sensitive numeric-aware). -/
def compareImportsInGroup (a b : ImportNode) : Ordering :=
  match cmpN (typeOrderOf a.type) (typeOrderOf b.type) with
  | .lt => .lt
  | .gt => .gt
  | .eq =>
    let aFirstId := (a.identifiers.head?.map ImportIdentifier.imported).getD a.source
    let bFirstId := (b.identifiers.head?.map ImportIdentifier.imported).getD b.source
    match localeCmpBase (stripTypeKw aFirstId) (stripTypeKw bFirstId) with
    | .lt => .lt
    | .gt => .gt
    | .eq => localeCmpVariant a.source b.source

/-- In-group sorter (`sortImportsInGroup`). -/
def sortImportsInGroup (imports : List ImportNode) : List ImportNode :=
  jsSort compareImportsInGroup imports

/-- Group key used by the rule (`getGroupKey` in `src/rule.ts`, which
delegates to `getImportGroupPriority`). -/
def getGroupKeyNode (r : ImportNode) : Int := getImportGroupPriority r.source

/-- Insertion into the insertion-ordered group map (`Map<number,
ImportNode[]>` filled by pushing onto the existing entry). -/
def groupInsert (k : Int) (r : ImportNode) :
    List (Int × List ImportNode) → List (Int × List ImportNode)
  | [] => [(k, [r])]
  | (k2, g) :: rest =>
    if k2 = k then (k2, g ++ [r]) :: rest else (k2, g) :: groupInsert k r rest

/-- The group map of `src/rule.ts`, as an insertion-ordered association
list. -/
def groupByPriority (l : List ImportNode) : List (Int × List ImportNode) :=
  l.foldl (fun acc r => groupInsert (getGroupKeyNode r) r acc) []

/-- Integer comparison as an `Ordering`. -/
def cmpZ (a b : Int) : Ordering :=
  if a < b then .lt else if b < a then .gt else .eq

/-- Sorted groups of `src/rule.ts`: group-map entries sorted by key
(`.sort(([a],[b]) => a - b)`), each group sorted by
`sortImportsInGroup`. -/
def sortedGroups (l : List ImportNode) : List (List ImportNode) :=
  (jsSort (fun p q => cmpZ p.1 q.1) (groupByPriority l)).map (fun p => sortImportsInGroup p.2)

/-- Expected flattened order (`expectedImports = sortedGroups.flat()`). -/
def expectedImports (l : List ImportNode) : List ImportNode :=
  (sortedGroups l).flatten

/-- Per-record sortedness check of `src/rule.ts`
(`areIdentifiersSorted` wrapper over the array check). -/
def areIdentifiersSortedNode (r : ImportNode) : Bool :=
  match r.type with
  | .sideEffect => true
  | .namespaceImport => true
  | .defaultImport =>
    if r.identifiers.length ≤ 1 then true else areIdentifiersSorted (r.identifiers.drop 1)
  | .named => areIdentifiersSorted r.identifiers

/-- Positionwise identifier difference flagged by the evaluation loop
of `src/rule.ts` (imported name or defaulted `isTypeOnly` flag). -/
def idMismatch (a b : ImportIdentifier) : Bool :=
  decide (a.imported ≠ b.imported ∨ a.isTypeOnly.getD false ≠ b.isTypeOnly.getD false)

/-- Positionwise record difference flagged by the evaluation loop of
`src/rule.ts`: source, kind, binding count, or any binding pair. -/
def recordMismatch (r e : ImportNode) : Bool :=
  decide (r.source ≠ e.source ∨ r.type ≠ e.type ∨
      r.identifiers.length ≠ e.identifiers.length) ||
    (r.identifiers.zip e.identifiers).any (fun p => idMismatch p.1 p.2)

/-- Steps `i ≥ 1` of the evaluation loop in `src/rule.ts`: unsorted
bindings, a group transition without a blank line (the newline count
between the two statements is below two), or a mismatch against the
expected record at this position. -/
def walkRest (prev : ImportNode) :
    List ImportNode → List ImportNode → List Nat → Bool
  | [], _, _ => false
  | cur :: rest, exp, gaps =>
    if ¬areIdentifiersSortedNode cur then true
    else if getGroupKeyNode cur ≠ getGroupKeyNode prev ∧ gaps.headD 0 < 2 then true
    else if (match exp.head? with | some e => recordMismatch cur e | none => false) then true
    else walkRest cur rest exp.tail gaps.tail

/-- Step `i = 0` of the evaluation loop (no blank-line check), then the
rest of the walk. -/
def evalRecords : List ImportNode → List ImportNode → List Nat → Bool
  | [], _, _ => false
  | r :: rest, exp, gaps =>
    if ¬areIdentifiersSortedNode r then true
    else if (match exp.head? with | some e => recordMismatch r e | none => false) then true
    else walkRest r rest exp.tail gaps

/-- Decision of the block reconciler in `src/rule.ts`
(`needsReordering`): the length guard, then the single validation
pass.  `gaps` lists the newline counts between consecutive statements
of the block (what `hasBlankLineBetween` measures). -/
def needsReordering (imports : List ImportNode) (gaps : List Nat) : Bool :=
  if imports.length = (expectedImports imports).length then
    evalRecords imports (expectedImports imports) gaps
  else true

/-- Record produced by re-extracting a statement regenerated by
`generateImportStatement`: named bindings come out in the generator's
sorted order (after the default binding for hybrid default imports);
everything else is unchanged. -/
def regenRecord (r : ImportNode) : ImportNode :=
  match r.type with
  | .named => ⟨r.source, r.text, r.type, jsSort sortIdentifiersCmp r.identifiers, r.isTypeOnly⟩
  | .defaultImport =>
    match r.identifiers with
    | defaultId :: namedId :: namedIds =>
      ⟨r.source, r.text, r.type,
        defaultId :: jsSort sortIdentifiersCmp (namedId :: namedIds), r.isTypeOnly⟩
    | _ => r
  | _ => r

/-- Records of the block emitted by the fixer of `src/rule.ts`: the
expected groups in order, each statement regenerated. -/
def fixedRecords (l : List ImportNode) : List ImportNode :=
  ((sortedGroups l).map (fun g => g.map regenRecord)).flatten

/-- Newline counts inside one emitted group: consecutive single-line
statements joined by one newline each. -/
def innerGaps (g : List ImportNode) : List Nat := List.replicate (g.length - 1) 1

/-- Newline counts of the fixed block: one newline inside a group, two
newlines (the pushed empty line) at each group boundary. -/
def gapsOfGroups : List (List ImportNode) → List Nat
  | [] => []
  | [g] => innerGaps g
  | g :: rest => innerGaps g ++ 2 :: gapsOfGroups rest

/-- Newline counts between the statements of the fixer's output. -/
def fixedGaps (l : List ImportNode) : List Nat := gapsOfGroups (sortedGroups l)

/-- Occurrence test for the pattern `kw\s*q[^q]*q` at the start of a
string (one step of the `.match` regex search). -/
def matchAtKwQuote (kw : Str) (q : Nat) (s : Str) : Bool :=
  if kw.isPrefixOf s then
    match (s.drop kw.length).dropWhile isWsN with
    | c :: rest => c == q && rest.contains q
    | [] => false
  else false

/-- Occurrence test for the regex `kw\s*q[^q]*q` anywhere in a string
(models `text.match(...) !== null`). -/
def hasKwQuote (kw : Str) (q : Nat) : Str → Bool
  | [] => false
  | c :: rest => matchAtKwQuote kw q (c :: rest) || hasKwQuote kw q rest

/-- Per-statement preference detector
(`detectFormattingPreferences` in
`detect-formatting-preferences.ts`): quote style read from the
statement's own original text, trailing commas always off. -/
def detectFormattingPreferences (sourceText : Str) (importText : Option Str) :
    FormattingPreferences :=
  match importText with
  | some t =>
    let singleMatch := hasKwQuote (str "from") 39 t || hasKwQuote (str "import") 39 t
    let doubleMatch := hasKwQuote (str "from") 34 t || hasKwQuote (str "import") 34 t
    if singleMatch && !doubleMatch then ⟨true, false⟩
    else if doubleMatch && !singleMatch then ⟨false, false⟩
    else ⟨true, false⟩
  | none =>
    let _ := sourceText
    ⟨true, false⟩

example :
    (sortIdentifiers
      [⟨str "item10", none, none⟩, ⟨str "item2", none, none⟩,
       ⟨str "item1", none, none⟩, ⟨str "item20", none, none⟩]).map ImportIdentifier.imported =
    [str "item1", str "item2", str "item10", str "item20"] := by decide
example :
    (sortIdentifiers
      [⟨str "customType", none, none⟩, ⟨str "CustomTypeValues", none, some true⟩]).map
        ImportIdentifier.imported =
    [str "CustomTypeValues", str "customType"] := by decide
example :
    (sortIdentifiers
      [⟨str "Zeus", none, none⟩, ⟨str "alpha", none, none⟩,
       ⟨str "Beta", none, none⟩, ⟨str "charlie", none, none⟩]).map ImportIdentifier.imported =
    [str "alpha", str "Beta", str "charlie", str "Zeus"] := by decide
example :
    generateImportStatement ⟨str "react", [], .named,
      [⟨str "useState", none, none⟩, ⟨str "useEffect", none, none⟩], false⟩ ⟨true, false⟩ =
    .ok (str "import \x7b useEffect, useState \x7d from 'react';") := by rfl

/-- Adjacency invariant of a block, relative to a preceding record:
whenever two consecutive records carry different group keys, the gap
between them holds at least two newlines (that is, the blank-line check
of the reconciler cannot fire). -/
def adjacentGapsOK : ImportNode → List ImportNode → List Nat → Prop
  | _, [], _ => True
  | prev, cur :: rest, gaps =>
    (getGroupKeyNode cur ≠ getGroupKeyNode prev → 2 ≤ gaps.headD 0) ∧
      adjacentGapsOK cur rest gaps.tail

/-- Record with deliberately unsorted named bindings, feeding the C1
counterexample. -/
def cxUnsorted : ImportNode :=
  ⟨str "m1", str "import \x7b z, a \x7d from 'm1';", .named,
   [⟨str "z", none, none⟩, ⟨str "a", none, none⟩], false⟩

/-- Companion record of the C1 counterexample block. -/
def cxOther : ImportNode :=
  ⟨str "m2", str "import \x7b b \x7d from 'm2';", .named,
   [⟨str "b", none, none⟩], false⟩

/-- Parent-relative record of the C2 evaluation. -/
def c2Parent : ImportNode :=
  ⟨str "../utils", str "import \x7b u \x7d from '../utils';", .named,
   [⟨str "u", none, none⟩], false⟩

/-- Current-directory record of the C2 evaluation. -/
def c2Current : ImportNode :=
  ⟨str "./helper", str "import \x7b h \x7d from './helper';", .named,
   [⟨str "h", none, none⟩], false⟩

/-- Dollar-aliased record of the C3 evaluation. -/
def c3Dollar : ImportNode :=
  ⟨str "$lib/stores", str "import \x7b s \x7d from '$lib/stores';", .named,
   [⟨str "s", none, none⟩], false⟩

/-- Bare record of the C3 evaluation. -/
def c3Bare : ImportNode :=
  ⟨str "react", str "import \x7b r \x7d from 'react';", .named,
   [⟨str "r", none, none⟩], false⟩

/-- Mixed named record of the C5 witness. -/
def c5Rec : ImportNode :=
  ⟨str "react", str "import type \x7b Config, useState \x7d from 'react';", .named,
   [⟨str "useState", none, none⟩, ⟨str "Config", none, some true⟩], true⟩

/-- Bare-group record of the C8 witness. -/
def c8React : ImportNode :=
  ⟨str "react", str "import \x7b a \x7d from 'react';", .named,
   [⟨str "a", none, none⟩], false⟩

/-- Current-directory record of the C8 witness. -/
def c8Helper : ImportNode :=
  ⟨str "./helper", str "import \x7b b \x7d from './helper';", .named,
   [⟨str "b", none, none⟩], false⟩

/-- Marker-free rendering of one binding: the name with its optional local
alias and no `type ` marker (what `formatIdentifier` emits under
suppression). -/
def plainIdentifier (id : ImportIdentifier) : Str :=
  match id.localName with
  | none => id.imported
  | some l => id.imported ++ str " as " ++ l

/-- Per-binding-marked rendering of one binding: a `type ` marker exactly
when the binding is flagged type-only, then the marker-free rendering. -/
def markedIdentifier (id : ImportIdentifier) : Str :=
  (if id.isTypeOnly = some true then str "type " else []) ++ plainIdentifier id

/-- Statement shape asserted by C5 for `statementTypeOnly = true`: one
statement-level `type ` marker right after `import `, and every binding
rendered marker-free. -/
def typeOnlyShape (info : ImportNode) (q : Nat) : Except String Str :=
  match info.type, info.identifiers with
  | .sideEffect, _ => .ok (str "import type " ++ [q] ++ info.source ++ [q, 59])
  | .namespaceImport, [] => .error "Namespace identifier is required"
  | .namespaceImport, id :: _ =>
    .ok (str "import type * as " ++ id.imported ++ str " from " ++ [q] ++ info.source ++ [q, 59])
  | .defaultImport, [] => .error "Default identifier is required"
  | .defaultImport, [d] =>
    .ok (str "import type " ++ plainIdentifier d ++ str " from " ++ [q] ++ info.source ++ [q, 59])
  | .defaultImport, d :: n2 :: rest =>
    .ok (str "import type " ++ plainIdentifier d ++ str ", \x7b " ++
      List.intercalate (str ", ")
        ((jsSort sortIdentifiersCmp (n2 :: rest)).map plainIdentifier) ++
      str " \x7d from " ++ [q] ++ info.source ++ [q, 59])
  | .named, ids =>
    .ok (str "import type \x7b " ++
      List.intercalate (str ", ") ((jsSort sortIdentifiersCmp ids).map plainIdentifier) ++
      str " \x7d from " ++ [q] ++ info.source ++ [q, 59])

/-- Statement shape asserted by C5 for `statementTypeOnly = false`: no
statement-level marker, and every binding carrying its own `type ` marker
exactly when flagged. -/
def valueShape (info : ImportNode) (q : Nat) : Except String Str :=
  match info.type, info.identifiers with
  | .sideEffect, _ => .ok (str "import " ++ [q] ++ info.source ++ [q, 59])
  | .namespaceImport, [] => .error "Namespace identifier is required"
  | .namespaceImport, id :: _ =>
    .ok (str "import * as " ++ id.imported ++ str " from " ++ [q] ++ info.source ++ [q, 59])
  | .defaultImport, [] => .error "Default identifier is required"
  | .defaultImport, [d] =>
    .ok (str "import " ++ markedIdentifier d ++ str " from " ++ [q] ++ info.source ++ [q, 59])
  | .defaultImport, d :: n2 :: rest =>
    .ok (str "import " ++ markedIdentifier d ++ str ", \x7b " ++
      List.intercalate (str ", ")
        ((jsSort sortIdentifiersCmp (n2 :: rest)).map markedIdentifier) ++
      str " \x7d from " ++ [q] ++ info.source ++ [q, 59])
  | .named, ids =>
    .ok (str "import \x7b " ++
      List.intercalate (str ", ") ((jsSort sortIdentifiersCmp ids).map markedIdentifier) ++
      str " \x7d from " ++ [q] ++ info.source ++ [q, 59])

/-- Hybrid default-plus-named value record of the C5 witness. -/
def c5Hybrid : ImportNode :=
  ⟨str "react", str "import d, \x7b Config, useState \x7d from 'react';", .defaultImport,
   [⟨str "d", none, none⟩, ⟨str "useState", none, none⟩, ⟨str "Config", none, some true⟩],
   false⟩

/-- Swap-antisymmetry of a comparator. -/
def CmpSwap {α : Type} (c : α → α → Ordering) : Prop :=
  ∀ a b, c a b = (c b a).swap

/-- Transitivity of the non-strict relation `c a b ≠ gt` of a
comparator. -/
def CmpLeTrans {α : Type} (c : α → α → Ordering) : Prop :=
  ∀ a b d, c a b ≠ Ordering.gt → c b d ≠ Ordering.gt → c a d ≠ Ordering.gt

/-- The non-strict relation a comparator induces (what `jsSort` sorts
by). -/
def leOf {α : Type} (c : α → α → Ordering) (a b : α) : Prop := c a b ≠ Ordering.gt

theorem cmpSwap_lt_iff {α : Type} {c : α → α → Ordering} (h : CmpSwap c) {a b : α} :
    c a b = Ordering.lt ↔ c b a = Ordering.gt := by
  rw [h a b]
  cases c b a <;> simp [Ordering.swap]

theorem cmpSwap_eq_iff {α : Type} {c : α → α → Ordering} (h : CmpSwap c) {a b : α} :
    c a b = Ordering.eq ↔ c b a = Ordering.eq := by
  rw [h a b]
  cases c b a <;> simp [Ordering.swap]

theorem cmpSwap_total {α : Type} {c : α → α → Ordering} (h : CmpSwap c) (a b : α) :
    leOf c a b ∨ leOf c b a := by
  unfold leOf
  rcases h2 : c a b with _ | _ | _
  · exact Or.inl (by simp [h2])
  · exact Or.inl (by simp [h2])
  · exact Or.inr (by rw [h b a, h2]; simp [Ordering.swap])

theorem cmpN_swap : CmpSwap cmpN := by
  intro a b
  unfold cmpN
  split_ifs <;> first | rfl | omega

theorem cmpN_leTrans : CmpLeTrans cmpN := by
  intro a b d hab hbd
  unfold cmpN at *
  split_ifs at * <;> first | omega | simp_all

theorem cmpN_eq_iff {a b : Nat} : cmpN a b = Ordering.eq ↔ a = b := by
  unfold cmpN
  split_ifs <;> simp <;> omega

theorem cmpZ_swap : CmpSwap cmpZ := by
  intro a b
  unfold cmpZ
  split_ifs <;> first | rfl | omega

theorem cmpZ_leTrans : CmpLeTrans cmpZ := by
  intro a b d hab hbd
  unfold cmpZ at *
  split_ifs at * <;> first | omega | simp_all

theorem lex2_swap {α : Type} {c d : α → α → Ordering} (hc : CmpSwap c) (hd : CmpSwap d) :
    CmpSwap (lex2 c d) := by
  intro a b
  unfold lex2
  rw [hc a b, hd a b]
  cases c b a <;> cases d b a <;> simp [Ordering.swap]

theorem lex2_leTrans {α : Type} {c d : α → α → Ordering}
    (hcs : CmpSwap c) (hct : CmpLeTrans c) (hdt : CmpLeTrans d) :
    CmpLeTrans (lex2 c d) := by
  intro a b e hab hbe
  unfold lex2 at *
  rcases h1 : c a b with _ | _ | _ <;> rcases h2 : c b e with _ | _ | _ <;>
      simp [h1, h2] at hab hbe ⊢
  -- lt, lt
  · have hae : c a e ≠ Ordering.gt := hct a b e (by simp [h1]) (by simp [h2])
    rcases h3 : c a e with _ | _ | _
    · simp
    · -- a ≈ e contradicts a < b ≤ e
      have hea : c e a = Ordering.eq := (cmpSwap_eq_iff hcs).mp h3
      have heb : c e b ≠ Ordering.gt := hct e a b (by simp [hea]) (by simp [h1])
      have : c e b = Ordering.gt := (cmpSwap_lt_iff hcs).mp h2
      exact absurd this heb
    · exact absurd h3 hae
  -- lt, eq
  · rcases h3 : c a e with _ | _ | _
    · simp
    · have hea : c e a = Ordering.eq := (cmpSwap_eq_iff hcs).mp h3
      have heb : c e b ≠ Ordering.gt :=
        hct e a b (by simp [hea]) (by simp [h1])
      have hbe2 : c e b = Ordering.eq := (cmpSwap_eq_iff hcs).mp h2
      have hba : c b a = Ordering.gt := (cmpSwap_lt_iff hcs).mp h1
      have : c b a ≠ Ordering.gt := hct b e a (by simp [h2]) (by simp [hea])
      exact absurd hba this
    · have : c a e ≠ Ordering.gt := hct a b e (by simp [h1]) (by simp [h2])
      exact absurd h3 this
  -- eq, lt
  · rcases h3 : c a e with _ | _ | _
    · simp
    · have hea : c e a = Ordering.eq := (cmpSwap_eq_iff hcs).mp h3
      have h4 : c e b ≠ Ordering.gt := hct e a b (by simp [hea]) (by simp [h1])
      have h5 : c e b = Ordering.gt := (cmpSwap_lt_iff hcs).mp h2
      exact absurd h5 h4
    · have hae : c a e ≠ Ordering.gt := hct a b e (by simp [h1]) (by simp [h2])
      exact absurd h3 hae
  -- eq, eq
  · rcases h3 : c a e with _ | _ | _
    · simp
    · have hab2 : d a b ≠ Ordering.gt := hab
      have hbe2 : d b e ≠ Ordering.gt := hbe
      simp [hdt a b e hab2 hbe2]
    · have : c a e ≠ Ordering.gt := hct a b e (by simp [h1]) (by simp [h2])
      exact absurd h3 this

theorem cmpListBy_swap {α : Type} {c : α → α → Ordering} (hc : CmpSwap c) :
    CmpSwap (cmpListBy c) := by
  intro a
  induction a with
  | nil => intro b; cases b <;> rfl
  | cons x xs ih =>
    intro b
    cases b with
    | nil => rfl
    | cons y ys =>
      simp only [cmpListBy]
      rw [hc x y, ih ys]
      cases c y x <;> cases cmpListBy c ys xs <;> rfl

theorem cmpListBy_leTrans {α : Type} {c : α → α → Ordering}
    (hcs : CmpSwap c) (hct : CmpLeTrans c) :
    CmpLeTrans (cmpListBy c) := by
  intro a
  induction a with
  | nil =>
    intro b e _ _
    cases e <;> simp [cmpListBy]
  | cons x xs ih =>
    intro b e hab hbe
    cases b with
    | nil => simp [cmpListBy] at hab
    | cons y ys =>
      cases e with
      | nil => simp [cmpListBy] at hbe
      | cons z zs =>
        simp only [cmpListBy] at hab hbe ⊢
        rcases h1 : c x y with _ | _ | _ <;> rcases h2 : c y z with _ | _ | _ <;>
            simp [h1, h2] at hab hbe ⊢
        -- lt, lt
        · rcases h3 : c x z with _ | _ | _
          · simp
          · have hzx : c z x = Ordering.eq := (cmpSwap_eq_iff hcs).mp h3
            have h4 : c z y ≠ Ordering.gt := hct z x y (by simp [hzx]) (by simp [h1])
            have h5 : c z y = Ordering.gt := (cmpSwap_lt_iff hcs).mp h2
            exact absurd h5 h4
          · exact absurd h3 (hct x y z (by simp [h1]) (by simp [h2]))
        -- lt, eq
        · rcases h3 : c x z with _ | _ | _
          · simp
          · have hzx : c z x = Ordering.eq := (cmpSwap_eq_iff hcs).mp h3
            have h4 : c y x ≠ Ordering.gt := hct y z x (by simp [h2]) (by simp [hzx])
            have h5 : c y x = Ordering.gt := (cmpSwap_lt_iff hcs).mp h1
            exact absurd h5 h4
          · exact absurd h3 (hct x y z (by simp [h1]) (by simp [h2]))
        -- eq, lt
        · rcases h3 : c x z with _ | _ | _
          · simp
          · have hzx : c z x = Ordering.eq := (cmpSwap_eq_iff hcs).mp h3
            have h4 : c z y ≠ Ordering.gt := hct z x y (by simp [hzx]) (by simp [h1])
            have h5 : c z y = Ordering.gt := (cmpSwap_lt_iff hcs).mp h2
            exact absurd h5 h4
          · exact absurd h3 (hct x y z (by simp [h1]) (by simp [h2]))
        -- eq, eq
        · rcases h3 : c x z with _ | _ | _
          · simp
          · exact ih ys zs hab hbe
          · exact absurd h3 (hct x y z (by simp [h1]) (by simp [h2]))

theorem cmpTok_swap : CmpSwap cmpTok := by
  intro a b
  cases a with
  | num v r =>
    cases b with
    | num w s =>
      simp only [cmpTok]
      rw [cmpN_swap v w, cmpListBy_swap cmpN_swap r s]
      cases cmpN w v <;> cases cmpListBy cmpN s r <;> rfl
    | chr c =>
      simp only [cmpTok]
      split_ifs <;> rfl
  | chr c =>
    cases b with
    | num w s =>
      simp only [cmpTok]
      split_ifs <;> rfl
    | chr d =>
      simp only [cmpTok]
      exact cmpN_swap c d

theorem cmpN_lt_iff {a b : Nat} : cmpN a b = Ordering.lt ↔ a < b := by
  unfold cmpN
  split_ifs <;> simp <;> omega

theorem cmpN_ne_gt_iff {a b : Nat} : cmpN a b ≠ Ordering.gt ↔ a ≤ b := by
  unfold cmpN
  split_ifs <;> simp <;> omega

theorem cmpTok_leTrans : CmpLeTrans cmpTok := by
  intro a b e hab hbe
  cases a with
  | num v r =>
    cases b with
    | num w s =>
      cases e with
      | num u t =>
        simp only [cmpTok] at hab hbe ⊢
        rcases h1 : cmpN v w with _ | _ | _ <;> rcases h2 : cmpN w u with _ | _ | _ <;>
            simp [h1, h2] at hab hbe ⊢
        · have h3 : cmpN v u = Ordering.lt := by
            have hv := cmpN_lt_iff.mp h1
            have hw := cmpN_lt_iff.mp h2
            exact cmpN_lt_iff.mpr (by omega)
          simp [h3]
        · have hw := cmpN_eq_iff.mp h2
          subst hw
          simp [h1]
        · have hv := cmpN_eq_iff.mp h1
          subst hv
          simp [h2]
        · have hv := cmpN_eq_iff.mp h1
          have hw := cmpN_eq_iff.mp h2
          subst hv
          subst hw
          simp [cmpN_eq_iff.mpr rfl]
          exact cmpListBy_leTrans cmpN_swap cmpN_leTrans r s t hab hbe
      | chr c =>
        simp only [cmpTok] at hbe ⊢
        split_ifs at hbe ⊢ with h
        · exact absurd rfl hbe
        · simp
    | chr c =>
      simp only [cmpTok] at hab
      split_ifs at hab with h
      · exact absurd rfl hab
      · cases e with
        | num u t =>
          simp only [cmpTok] at hbe
          rw [if_neg h] at hbe
          exact absurd rfl hbe
        | chr d =>
          simp only [cmpTok] at hbe ⊢
          have hcd : c ≤ d := cmpN_ne_gt_iff.mp hbe
          split_ifs with h3
          · omega
          · simp
  | chr c =>
    cases b with
    | num w s =>
      simp only [cmpTok] at hab
      split_ifs at hab with h
      · cases e with
        | num u t =>
          simp only [cmpTok]
          rw [if_pos h]
          simp
        | chr d =>
          simp only [cmpTok] at hbe ⊢
          by_cases hd : d < 48
          · rw [if_pos hd] at hbe
            exact absurd rfl hbe
          · exact cmpN_ne_gt_iff.mpr (by omega)
      · exact absurd rfl hab
    | chr d =>
      cases e with
      | num u t =>
        simp only [cmpTok] at hab hbe ⊢
        have hcd : c ≤ d := cmpN_ne_gt_iff.mp hab
        split_ifs at hbe with h2
        · split_ifs with h3
          · simp
          · omega
        · exact absurd rfl hbe
      | chr f =>
        simp only [cmpTok] at hab hbe ⊢
        exact cmpN_leTrans c d f hab hbe

theorem primaryCmp_swap : CmpSwap primaryCmp := by
  intro a b
  unfold primaryCmp
  exact cmpListBy_swap cmpTok_swap _ _

theorem primaryCmp_leTrans : CmpLeTrans primaryCmp := by
  intro a b d hab hbd
  exact cmpListBy_leTrans cmpTok_swap cmpTok_leTrans _ _ _ hab hbd

theorem caseCmp_swap : CmpSwap caseCmp := by
  intro a b
  unfold caseCmp
  refine cmpListBy_swap ?_ _ _
  intro x y
  exact cmpN_swap _ _

theorem caseCmp_leTrans : CmpLeTrans caseCmp := by
  intro a b d hab hbd
  refine cmpListBy_leTrans ?_ ?_ _ _ _ hab hbd
  · intro x y
    exact cmpN_swap _ _
  · intro x y z h1 h2
    exact cmpN_leTrans _ _ _ h1 h2

theorem localeCmpVariant_swap : CmpSwap localeCmpVariant := by
  intro a b
  exact lex2_swap primaryCmp_swap caseCmp_swap a b

theorem localeCmpVariant_leTrans : CmpLeTrans localeCmpVariant := by
  intro a b d hab hbd
  exact lex2_leTrans primaryCmp_swap primaryCmp_leTrans caseCmp_leTrans a b d hab hbd

theorem localeCmpBase_swap : CmpSwap localeCmpBase := by
  intro a b
  exact primaryCmp_swap a b

theorem localeCmpBase_leTrans : CmpLeTrans localeCmpBase := by
  intro a b d hab hbd
  exact primaryCmp_leTrans a b d hab hbd

theorem tokenize_cons_nondigit {c : Nat} (h : isDigitN c = false) (s : Str) :
    tokenize (c :: s) = Tok.chr c :: tokenize s := by
  simp [tokenize, h]

theorem tokenize_cons_digit {c : Nat} (h : isDigitN c = true) (s : Str) :
    ∃ v raw ts, tokenize (c :: s) = Tok.num v raw :: ts := by
  simp only [tokenize, h, if_true]
  rcases tokenize s with _ | ⟨t, ts⟩
  · exact ⟨_, _, _, rfl⟩
  · cases t
    · exact ⟨_, _, _, rfl⟩
    · exact ⟨_, _, _, rfl⟩

theorem cmpListBy_head_ne {α : Type} {c : α → α → Ordering} {a b : α} {as bs : List α}
    (h : c a b ≠ Ordering.eq) :
    cmpListBy c (a :: as) (b :: bs) = c a b := by
  simp only [cmpListBy]
  rcases h2 : c a b with _ | _ | _
  · rfl
  · exact absurd h2 h
  · rfl

/-- If two strings have the same non-digit lower-cased head character,
their primary comparisons against any third string whose head lowers
differently agree and are decisive. -/
theorem primary_same_head {hx hy l : Nat} (xs ys : Str) (z : Str)
    (hlx : lowerN hx = l) (hly : lowerN hy = l) (hnd : isDigitN l = false)
    (hz : z = [] ∨ ∃ hz0 zs, z = hz0 :: zs ∧ lowerN hz0 ≠ l) :
    primaryCmp (hx :: xs) z = primaryCmp (hy :: ys) z ∧
      primaryCmp (hx :: xs) z ≠ Ordering.eq := by
  have htx : tokenize (lowerStr (hx :: xs)) = Tok.chr l :: tokenize (lowerStr xs) := by
    show tokenize (lowerN hx :: lowerStr xs) = _
    rw [hlx, tokenize_cons_nondigit hnd]
  have hty : tokenize (lowerStr (hy :: ys)) = Tok.chr l :: tokenize (lowerStr ys) := by
    show tokenize (lowerN hy :: lowerStr ys) = _
    rw [hly, tokenize_cons_nondigit hnd]
  rcases hz with rfl | ⟨hz0, zs, rfl, hm⟩
  · constructor
    · unfold primaryCmp
      rw [htx, hty]
      rfl
    · unfold primaryCmp
      rw [htx]
      simp [cmpListBy, tokenize]
  · have hlz : lowerStr (hz0 :: zs) = lowerN hz0 :: lowerStr zs := rfl
    rcases hd : isDigitN (lowerN hz0) with _ | _
    · -- non-digit head on the right as well: single-character tokens decide
      have htz : tokenize (lowerStr (hz0 :: zs)) =
          Tok.chr (lowerN hz0) :: tokenize (lowerStr zs) := by
        rw [hlz, tokenize_cons_nondigit hd]
      have hcne : cmpTok (Tok.chr l) (Tok.chr (lowerN hz0)) ≠ Ordering.eq := by
        simp only [cmpTok]
        intro hcontra
        exact hm (cmpN_eq_iff.mp hcontra).symm
      constructor
      · unfold primaryCmp
        rw [htx, hty, htz, cmpListBy_head_ne hcne, cmpListBy_head_ne hcne]
      · unfold primaryCmp
        rw [htx, htz, cmpListBy_head_ne hcne]
        exact hcne
    · -- digit head on the right: the digit-run token versus the character decides
      obtain ⟨v, raw, ts, htz⟩ := tokenize_cons_digit hd (lowerStr zs)
      have htz2 : tokenize (lowerStr (hz0 :: zs)) = Tok.num v raw :: ts := by
        rw [hlz]
        exact htz
      have hcne : cmpTok (Tok.chr l) (Tok.num v raw) ≠ Ordering.eq := by
        simp only [cmpTok]
        split_ifs <;> simp
      constructor
      · unfold primaryCmp
        rw [htx, hty, htz2, cmpListBy_head_ne hcne, cmpListBy_head_ne hcne]
      · unfold primaryCmp
        rw [htx, htz2, cmpListBy_head_ne hcne]
        exact hcne

/-- Exactly one of two distinct characters with the same lower-casing
is an ASCII upper-case letter, and they differ by the case offset. -/
theorem lower_eq_ne_case {a b : Nat} (hl : lowerN a = lowerN b) (hne : a ≠ b) :
    (isUpperN a = true ∧ isUpperN b = false ∧ lowerN a = b ∧ b = a + 32) ∨
    (isUpperN b = true ∧ isUpperN a = false ∧ lowerN b = a ∧ a = b + 32) := by
  simp only [isUpperN, lowerN, upperN, decide_eq_true_eq, decide_eq_false_iff_not] at *
  split_ifs at * <;> omega

theorem isUpperN_false_of_lower {l : Nat} (h1 : 97 ≤ l) (h2 : l ≤ 122) :
    isUpperN l = false := by
  simp only [isUpperN, lowerN, upperN, decide_eq_false_iff_not]
  split_ifs <;> omega

theorem variant_of_primary_ne {a b : Str} (h : primaryCmp a b ≠ Ordering.eq) :
    localeCmpVariant a b = primaryCmp a b := by
  unfold localeCmpVariant lex2
  rcases h2 : primaryCmp a b with _ | _ | _
  · rfl
  · exact absurd h2 h
  · rfl

theorem isUpperN_true_range {a : Nat} (h : isUpperN a = true) : 65 ≤ a ∧ a ≤ 90 := by
  simp only [isUpperN, lowerN, upperN, decide_eq_true_eq] at h
  split_ifs at h <;> omega

theorem lowerN_id_of_ge97 {a : Nat} (h : 97 ≤ a) : lowerN a = a := by
  unfold lowerN
  split_ifs <;> omega

theorem isDigitN_false_of_ge97 {a : Nat} (h : 97 ≤ a) : isDigitN a = false := by
  simp only [isDigitN]
  simp only [Bool.and_eq_false_iff, decide_eq_false_iff_not]
  omega

theorem tokenize_cons_shape (c : Nat) (s : Str) : ∃ t ts, tokenize (c :: s) = t :: ts := by
  rcases h : isDigitN c with _ | _
  · exact ⟨_, _, tokenize_cons_nondigit h s⟩
  · obtain ⟨v, raw, ts, h2⟩ := tokenize_cons_digit h s
    exact ⟨_, _, h2⟩

theorem primaryCmp_nil_cons (c : Nat) (s : Str) :
    primaryCmp [] (c :: s) = Ordering.lt := by
  unfold primaryCmp
  obtain ⟨t, ts, h⟩ := tokenize_cons_shape (lowerN c) (lowerStr s)
  show cmpListBy cmpTok (tokenize []) (tokenize (lowerN c :: lowerStr s)) = Ordering.lt
  rw [h]
  rfl

theorem primaryCmp_cons_nil (c : Nat) (s : Str) :
    primaryCmp (c :: s) [] = Ordering.gt := by
  unfold primaryCmp
  obtain ⟨t, ts, h⟩ := tokenize_cons_shape (lowerN c) (lowerStr s)
  show cmpListBy cmpTok (tokenize (lowerN c :: lowerStr s)) (tokenize []) = Ordering.gt
  rw [h]
  rfl

theorem identifierNameCmp_nil_left (z : Str) : identifierNameCmp [] z ≠ Ordering.gt := by
  cases z with
  | nil => decide
  | cons c zs =>
    show localeCmpVariant [] (c :: zs) ≠ Ordering.gt
    unfold localeCmpVariant lex2
    rw [primaryCmp_nil_cons]
    simp

theorem identifierNameCmp_cons_nil (c : Nat) (s : Str) :
    identifierNameCmp (c :: s) [] = Ordering.gt := by
  show localeCmpVariant (c :: s) [] = Ordering.gt
  unfold localeCmpVariant lex2
  rw [primaryCmp_cons_nil]

theorem identifierNameCmp_swap : CmpSwap identifierNameCmp := by
  intro x y
  cases x with
  | nil =>
    cases y with
    | nil => decide
    | cons yf ys =>
      have h1 : identifierNameCmp ([] : Str) (yf :: ys) = localeCmpVariant [] (yf :: ys) := rfl
      have h2 : identifierNameCmp (yf :: ys) ([] : Str) = localeCmpVariant (yf :: ys) [] := rfl
      rw [h1, h2]
      exact localeCmpVariant_swap _ _
  | cons xf xs =>
    cases y with
    | nil =>
      have h1 : identifierNameCmp (xf :: xs) ([] : Str) = localeCmpVariant (xf :: xs) [] := rfl
      have h2 : identifierNameCmp ([] : Str) (xf :: xs) = localeCmpVariant [] (xf :: xs) := rfl
      rw [h1, h2]
      exact localeCmpVariant_swap _ _
    | cons yf ys =>
      simp only [identifierNameCmp]
      by_cases hsp : lowerN xf = lowerN yf ∧ xf ≠ yf
      · have hsp2 : lowerN yf = lowerN xf ∧ yf ≠ xf :=
          ⟨hsp.1.symm, fun h => hsp.2 h.symm⟩
        rw [if_pos hsp, if_pos hsp2]
        rcases hu : isUpperN xf with _ | _ <;> rcases hv : isUpperN yf with _ | _
        · rw [if_neg (by simp [hu]), if_neg (by simp [hu]),
            if_neg (by simp [hv]), if_neg (by simp [hv])]
          exact localeCmpVariant_swap _ _
        · rw [if_neg (by simp [hu]), if_pos (by simp [hu, hv]),
            if_pos (by simp [hu, hv])]
          rfl
        · rw [if_pos (by simp [hu, hv]), if_neg (by simp [hv]),
            if_pos (by simp [hu, hv])]
          rfl
        · rw [if_neg (by simp [hv]), if_neg (by simp [hu]),
            if_neg (by simp [hv]), if_neg (by simp [hu])]
          exact localeCmpVariant_swap _ _
      · have hsp2 : ¬(lowerN yf = lowerN xf ∧ yf ≠ xf) :=
          fun h => hsp ⟨h.1.symm, fun h2 => h.2 h2.symm⟩
        rw [if_neg hsp, if_neg hsp2]
        exact localeCmpVariant_swap _ _

theorem identifierNameCmp_leTrans : CmpLeTrans identifierNameCmp := by
  intro x y z hab hbe
  cases x with
  | nil => exact identifierNameCmp_nil_left z
  | cons hx xs =>
    cases y with
    | nil => exact absurd (identifierNameCmp_cons_nil hx xs) hab
    | cons hy ys =>
      cases z with
      | nil => exact absurd (identifierNameCmp_cons_nil hy ys) hbe
      | cons hz zs =>
        simp only [identifierNameCmp] at hab hbe ⊢
        by_cases s1 : lowerN hx = lowerN hy ∧ hx ≠ hy
        · rw [if_pos s1] at hab
          by_cases s2 : lowerN hy = lowerN hz ∧ hy ≠ hz
          · -- both special pairs: impossible once the flags are forced
            rw [if_pos s2] at hbe
            rcases lower_eq_ne_case s1.1 s1.2 with ⟨ux, nuy, hlo, hpl⟩ | ⟨uy, nux, hlo, hpl⟩
            · rcases lower_eq_ne_case s2.1 s2.2 with ⟨uy2, _, _, _⟩ | ⟨uz, nuy2, _, _⟩
              · rw [nuy] at uy2
                cases uy2
              · rw [if_neg (by simp [nuy2]), if_pos (by simp [nuy2, uz])] at hbe
                exact absurd rfl hbe
            · rw [if_neg (by simp [nux]), if_pos (by simp [nux, uy])] at hab
              exact absurd rfl hab
          · -- x and y share a lower-cased head letter, z is compared plainly
            rw [if_neg s2] at hbe
            rcases lower_eq_ne_case s1.1 s1.2 with ⟨ux, nuy, hlo, hpl⟩ | ⟨uy, nux, hlo, hpl⟩
            · have hxr := isUpperN_true_range ux
              have hyge : 97 ≤ hy := by omega
              have hndg : isDigitN hy = false := isDigitN_false_of_ge97 hyge
              have hyid : lowerN hy = hy := lowerN_id_of_ge97 hyge
              by_cases hc : lowerN hz = hy
              · have hyz : hy = hz := by
                  by_contra hne
                  exact s2 ⟨by rw [hyid, hc], hne⟩
                have nuz : isUpperN hz = false := by
                  rw [← hyz]
                  exact nuy
                have hs3 : lowerN hx = lowerN hz ∧ hx ≠ hz := by
                  refine ⟨by rw [hlo, hc.symm], ?_⟩
                  intro he
                  omega
                rw [if_pos hs3, if_pos (by simp [ux, nuz])]
                simp
              · have key := primary_same_head xs ys (hz :: zs) hlo hyid hndg
                  (Or.inr ⟨hz, zs, rfl, hc⟩)
                obtain ⟨keq, kne⟩ := key
                have kne2 : primaryCmp (hy :: ys) (hz :: zs) ≠ Ordering.eq := by
                  rw [← keq]
                  exact kne
                have hFx : localeCmpVariant (hx :: xs) (hz :: zs) =
                    primaryCmp (hx :: xs) (hz :: zs) := variant_of_primary_ne kne
                have hFy : localeCmpVariant (hy :: ys) (hz :: zs) =
                    primaryCmp (hy :: ys) (hz :: zs) := variant_of_primary_ne kne2
                have hs3 : ¬(lowerN hx = lowerN hz ∧ hx ≠ hz) := by
                  intro h
                  exact hc (by rw [← h.1, hlo])
                rw [if_neg hs3, hFx, keq, ← hFy]
                exact hbe
            · rw [if_neg (by simp [nux]), if_pos (by simp [nux, uy])] at hab
              exact absurd rfl hab
        · rw [if_neg s1] at hab
          by_cases s2 : lowerN hy = lowerN hz ∧ hy ≠ hz
          · -- y and z share a lower-cased head letter, x is compared plainly
            rw [if_pos s2] at hbe
            rcases lower_eq_ne_case s2.1 s2.2 with ⟨uy, nuz, hlo2, hpl2⟩ | ⟨uz, nuy, hlo2, hpl2⟩
            · have hyr := isUpperN_true_range uy
              have hzge : 97 ≤ hz := by omega
              have hndg : isDigitN hz = false := isDigitN_false_of_ge97 hzge
              have hzid : lowerN hz = hz := lowerN_id_of_ge97 hzge
              by_cases hc : lowerN hx = hz
              · have hxy : hx = hy := by
                  by_contra hne
                  exact s1 ⟨by rw [hc, hlo2], hne⟩
                have hs3 : lowerN hx = lowerN hz ∧ hx ≠ hz := by
                  refine ⟨by rw [hc, hzid], ?_⟩
                  intro he
                  rw [he] at hxy
                  exact s2.2 hxy.symm
                rw [if_pos hs3, if_pos (by simp [hxy ▸ uy, nuz])]
                simp
              · have key := primary_same_head ys zs (hx :: xs) hlo2 hzid hndg
                  (Or.inr ⟨hx, xs, rfl, hc⟩)
                obtain ⟨keq, kne⟩ := key
                have kne2 : primaryCmp (hz :: zs) (hx :: xs) ≠ Ordering.eq := by
                  rw [← keq]
                  exact kne
                have hFyx : localeCmpVariant (hy :: ys) (hx :: xs) =
                    primaryCmp (hy :: ys) (hx :: xs) := variant_of_primary_ne kne
                have hFzx : localeCmpVariant (hz :: zs) (hx :: xs) =
                    primaryCmp (hz :: zs) (hx :: xs) := variant_of_primary_ne kne2
                have hswap : localeCmpVariant (hx :: xs) (hy :: ys) =
                    localeCmpVariant (hx :: xs) (hz :: zs) := by
                  rw [localeCmpVariant_swap (hx :: xs) (hy :: ys),
                    localeCmpVariant_swap (hx :: xs) (hz :: zs), hFyx, hFzx, keq]
                have hs3 : ¬(lowerN hx = lowerN hz ∧ hx ≠ hz) :=
                  fun h => hc (h.1.trans hzid)
                rw [if_neg hs3, ← hswap]
                exact hab
            · rw [if_neg (by simp [nuy]), if_pos (by simp [nuy, uz])] at hbe
              exact absurd rfl hbe
          · -- no special pair among the inputs
            rw [if_neg s2] at hbe
            by_cases s3 : lowerN hx = lowerN hz ∧ hx ≠ hz
            · rw [if_pos s3]
              rcases lower_eq_ne_case s3.1 s3.2 with ⟨ux, nuz, _, _⟩ | ⟨uz, nux, hlo3, hpl3⟩
              · rw [if_pos (by simp [ux, nuz])]
                simp
              · exfalso
                have hzr := isUpperN_true_range uz
                have hxge : 97 ≤ hx := by omega
                have hndg : isDigitN hx = false := isDigitN_false_of_ge97 hxge
                have hxid : lowerN hx = hx := lowerN_id_of_ge97 hxge
                by_cases hc : lowerN hy = hx
                · have hxy : hx = hy := by
                    by_contra hne
                    exact s1 ⟨by rw [hxid, hc], hne⟩
                  apply s2
                  refine ⟨by rw [← hxy, hxid, hlo3], ?_⟩
                  intro he
                  omega
                · have key := primary_same_head xs zs (hy :: ys) hxid hlo3 hndg
                    (Or.inr ⟨hy, ys, rfl, hc⟩)
                  obtain ⟨keq, kne⟩ := key
                  have hFxy : localeCmpVariant (hx :: xs) (hy :: ys) =
                      primaryCmp (hx :: xs) (hy :: ys) := variant_of_primary_ne kne
                  have hplt : primaryCmp (hx :: xs) (hy :: ys) = Ordering.lt := by
                    rcases h : primaryCmp (hx :: xs) (hy :: ys) with _ | _ | _
                    · rfl
                    · exact absurd h kne
                    · rw [hFxy, h] at hab
                      exact absurd rfl hab
                  have hpzy : primaryCmp (hz :: zs) (hy :: ys) = Ordering.lt := by
                    rw [← keq]
                    exact hplt
                  have kne2 : primaryCmp (hz :: zs) (hy :: ys) ≠ Ordering.eq := by
                    rw [hpzy]
                    simp
                  have hFzy : localeCmpVariant (hz :: zs) (hy :: ys) = Ordering.lt := by
                    rw [variant_of_primary_ne kne2]
                    exact hpzy
                  have hgt : localeCmpVariant (hy :: ys) (hz :: zs) = Ordering.gt := by
                    rw [localeCmpVariant_swap (hy :: ys) (hz :: zs), hFzy]
                    rfl
                  exact absurd hgt hbe
            · rw [if_neg s3]
              exact localeCmpVariant_leTrans _ _ _ hab hbe

theorem jsSort_sorted {α : Type} {c : α → α → Ordering}
    (hs : CmpSwap c) (ht : CmpLeTrans c) (l : List α) :
    List.Sorted (fun a b => c a b ≠ Ordering.gt) (jsSort c l) := by
  haveI : IsTotal α (fun a b => c a b ≠ Ordering.gt) := ⟨cmpSwap_total hs⟩
  haveI : IsTrans α (fun a b => c a b ≠ Ordering.gt) := ⟨ht⟩
  exact List.sorted_insertionSort _ l

theorem jsSort_perm {α : Type} (c : α → α → Ordering) (l : List α) :
    List.Perm (jsSort c l) l :=
  List.perm_insertionSort _ l

theorem jsSort_eq_self {α : Type} {c : α → α → Ordering} {l : List α}
    (h : List.Sorted (fun a b => c a b ≠ Ordering.gt) l) : jsSort c l = l :=
  List.Sorted.insertionSort_eq h

theorem jsSort_idem {α : Type} {c : α → α → Ordering}
    (hs : CmpSwap c) (ht : CmpLeTrans c) (l : List α) :
    jsSort c (jsSort c l) = jsSort c l :=
  jsSort_eq_self (jsSort_sorted hs ht l)

theorem sortIdentifiersCmp_swap : CmpSwap sortIdentifiersCmp :=
  fun a b => identifierNameCmp_swap a.imported b.imported

theorem sortIdentifiersCmp_leTrans : CmpLeTrans sortIdentifiersCmp :=
  fun a b d h1 h2 => identifierNameCmp_leTrans a.imported b.imported d.imported h1 h2

theorem compareImportsInGroup_unfold (p q : ImportNode) :
    compareImportsInGroup p q =
      lex2 (fun p q : ImportNode => cmpN (typeOrderOf p.type) (typeOrderOf q.type))
        (lex2
          (fun p q : ImportNode =>
            localeCmpBase
              (stripTypeKw ((p.identifiers.head?.map ImportIdentifier.imported).getD p.source))
              (stripTypeKw ((q.identifiers.head?.map ImportIdentifier.imported).getD q.source)))
          (fun p q : ImportNode => localeCmpVariant p.source q.source)) p q := rfl

theorem compareImportsInGroup_swap : CmpSwap compareImportsInGroup := by
  intro a b
  rw [compareImportsInGroup_unfold, compareImportsInGroup_unfold]
  exact lex2_swap (fun p q => cmpN_swap _ _)
    (lex2_swap (fun p q => localeCmpBase_swap _ _) (fun p q => localeCmpVariant_swap _ _)) a b

theorem keyed_swap {α β : Type} (f : α → β) {c : β → β → Ordering} (h : CmpSwap c) :
    CmpSwap (fun a b => c (f a) (f b)) :=
  fun a b => h (f a) (f b)

theorem keyed_leTrans {α β : Type} (f : α → β) {c : β → β → Ordering} (h : CmpLeTrans c) :
    CmpLeTrans (fun a b => c (f a) (f b)) :=
  fun a b d h1 h2 => h (f a) (f b) (f d) h1 h2

theorem compareImportsInGroup_leTrans : CmpLeTrans compareImportsInGroup := by
  have hswap1 : CmpSwap (fun p q : ImportNode => cmpN (typeOrderOf p.type) (typeOrderOf q.type)) :=
    keyed_swap (fun p : ImportNode => typeOrderOf p.type) cmpN_swap
  have htr1 : CmpLeTrans (fun p q : ImportNode => cmpN (typeOrderOf p.type) (typeOrderOf q.type)) :=
    keyed_leTrans (fun p : ImportNode => typeOrderOf p.type) cmpN_leTrans
  have hswap2 : CmpSwap (fun p q : ImportNode =>
      localeCmpBase
        (stripTypeKw ((p.identifiers.head?.map ImportIdentifier.imported).getD p.source))
        (stripTypeKw ((q.identifiers.head?.map ImportIdentifier.imported).getD q.source))) :=
    keyed_swap
      (fun p : ImportNode =>
        stripTypeKw ((p.identifiers.head?.map ImportIdentifier.imported).getD p.source))
      localeCmpBase_swap
  have htr2 : CmpLeTrans (fun p q : ImportNode =>
      localeCmpBase
        (stripTypeKw ((p.identifiers.head?.map ImportIdentifier.imported).getD p.source))
        (stripTypeKw ((q.identifiers.head?.map ImportIdentifier.imported).getD q.source))) :=
    keyed_leTrans
      (fun p : ImportNode =>
        stripTypeKw ((p.identifiers.head?.map ImportIdentifier.imported).getD p.source))
      localeCmpBase_leTrans
  have hswap3 : CmpSwap (fun p q : ImportNode => localeCmpVariant p.source q.source) :=
    keyed_swap (fun p : ImportNode => p.source) localeCmpVariant_swap
  have htr3 : CmpLeTrans (fun p q : ImportNode => localeCmpVariant p.source q.source) :=
    keyed_leTrans (fun p : ImportNode => p.source) localeCmpVariant_leTrans
  intro a b d h1 h2
  rw [compareImportsInGroup_unfold] at h1 h2 ⊢
  exact lex2_leTrans hswap1 htr1 (lex2_leTrans hswap2 htr2 htr3) a b d h1 h2

theorem sortImportsInGroup_perm (g : List ImportNode) :
    List.Perm (sortImportsInGroup g) g :=
  jsSort_perm _ g

theorem sortImportsInGroup_idem (g : List ImportNode) :
    sortImportsInGroup (sortImportsInGroup g) = sortImportsInGroup g :=
  jsSort_idem compareImportsInGroup_swap compareImportsInGroup_leTrans g

theorem sortIdentifiers_perm (l : List ImportIdentifier) :
    List.Perm (sortIdentifiers l) l :=
  jsSort_perm _ l

theorem sortIdentifiers_idem (l : List ImportIdentifier) :
    sortIdentifiers (sortIdentifiers l) = sortIdentifiers l :=
  jsSort_idem sortIdentifiersCmp_swap sortIdentifiersCmp_leTrans l

theorem sortIdentifiers_eq_self {l : List ImportIdentifier}
    (h : areIdentifiersSorted l = true) : sortIdentifiers l = l := by
  unfold areIdentifiersSorted at h
  split_ifs at h with hlen
  · match l, hlen with
    | [], _ => rfl
    | [a], _ => rfl
  · have h2 : l.map ImportIdentifier.imported =
        (sortIdentifiers l).map ImportIdentifier.imported := of_decide_eq_true h
    have hsorted : List.Sorted (fun a b => sortIdentifiersCmp a b ≠ Ordering.gt)
        (sortIdentifiers l) :=
      jsSort_sorted sortIdentifiersCmp_swap sortIdentifiersCmp_leTrans l
    have hmap : ((sortIdentifiers l).map ImportIdentifier.imported).Pairwise
        (fun u v => identifierNameCmp u v ≠ Ordering.gt) := by
      rw [List.pairwise_map]
      exact hsorted
    rw [← h2] at hmap
    have hl : l.Pairwise (fun a b => sortIdentifiersCmp a b ≠ Ordering.gt) := by
      have := List.pairwise_map.mp hmap
      exact this
    exact jsSort_eq_self hl

theorem areIdentifiersSorted_sortIdentifiers (l : List ImportIdentifier) :
    areIdentifiersSorted (sortIdentifiers l) = true := by
  unfold areIdentifiersSorted
  split_ifs with hlen
  · rfl
  · rw [sortIdentifiers_idem]
    simp

theorem regenRecord_eq_self {r : ImportNode} (h : areIdentifiersSortedNode r = true) :
    regenRecord r = r := by
  obtain ⟨src, txt, ty, ids, ito⟩ := r
  cases ty with
  | sideEffect => rfl
  | namespaceImport => rfl
  | defaultImport =>
    simp only [areIdentifiersSortedNode] at h
    cases ids with
    | nil => rfl
    | cons d rest =>
      cases rest with
      | nil => rfl
      | cons n rest2 =>
        rw [if_neg (by simp)] at h
        have hsort : jsSort sortIdentifiersCmp (n :: rest2) = n :: rest2 :=
          sortIdentifiers_eq_self (by simpa using h)
        simp [regenRecord, hsort]
  | named =>
    simp only [areIdentifiersSortedNode] at h
    have hsort : jsSort sortIdentifiersCmp ids = ids := sortIdentifiers_eq_self h
    simp [regenRecord, hsort]

theorem groupInsert_keys (k : Int) (r : ImportNode) (gs : List (Int × List ImportNode)) :
    (groupInsert k r gs).map Prod.fst =
      if k ∈ gs.map Prod.fst then gs.map Prod.fst else gs.map Prod.fst ++ [k] := by
  induction gs with
  | nil => simp [groupInsert]
  | cons p rest ih =>
    obtain ⟨k2, g⟩ := p
    simp only [groupInsert]
    by_cases h1 : k2 = k
    · subst h1
      rw [if_pos rfl, if_pos (by simp)]
      simp
    · rw [if_neg h1]
      by_cases h2 : k ∈ rest.map Prod.fst
      · have hc : k ∈ ((k2, g) :: rest).map Prod.fst := by simp [h2]
        rw [if_pos hc, List.map_cons, ih, if_pos h2, List.map_cons]
      · have hc : k ∉ ((k2, g) :: rest).map Prod.fst := by
          intro hmem
          simp only [List.map_cons, List.mem_cons] at hmem
          rcases hmem with hmem | hmem
          · exact h1 hmem.symm
          · exact h2 hmem
        rw [if_neg hc, List.map_cons, ih, if_neg h2, List.map_cons]
        simp

theorem groupInsert_mem {k : Int} {r : ImportNode} {gs : List (Int × List ImportNode)}
    (hk : getGroupKeyNode r = k)
    (hgood : ∀ p ∈ gs, p.2 ≠ [] ∧ ∀ x ∈ p.2, getGroupKeyNode x = p.1) :
    ∀ p ∈ groupInsert k r gs, p.2 ≠ [] ∧ ∀ x ∈ p.2, getGroupKeyNode x = p.1 := by
  induction gs with
  | nil =>
    intro p hp
    simp only [groupInsert, List.mem_singleton] at hp
    subst hp
    exact ⟨by simp, by simpa using hk⟩
  | cons q rest ih =>
    obtain ⟨k2, g⟩ := q
    intro p hp
    simp only [groupInsert] at hp
    split_ifs at hp with h1
    · rcases List.mem_cons.mp hp with hp | hp
      · subst hp
        refine ⟨by simp, ?_⟩
        intro x hx
        rcases List.mem_append.mp hx with hx | hx
        · exact (hgood (k2, g) (by simp)).2 x hx
        · simp only [List.mem_singleton] at hx
          subst hx
          rw [hk, h1]
      · exact hgood p (List.mem_cons_of_mem _ hp)
    · rcases List.mem_cons.mp hp with hp | hp
      · subst hp
        exact hgood (k2, g) (by simp)
      · exact ih (fun q2 hq2 => hgood q2 (List.mem_cons_of_mem _ hq2)) p hp

theorem groupInsert_flatten_perm (k : Int) (r : ImportNode)
    (gs : List (Int × List ImportNode)) :
    List.Perm (((groupInsert k r gs).map Prod.snd).flatten)
      ((gs.map Prod.snd).flatten ++ [r]) := by
  induction gs with
  | nil => simp [groupInsert]
  | cons q rest ih =>
    obtain ⟨k2, g⟩ := q
    simp only [groupInsert]
    split_ifs with h1
    · simp only [List.map_cons, List.flatten_cons, List.append_assoc]
      exact (List.Perm.append_left g (List.perm_append_comm))
    · simp only [List.map_cons, List.flatten_cons, List.append_assoc]
      exact List.Perm.append_left g ih

theorem groupByPriority_flatten_perm (l : List ImportNode) :
    List.Perm (((groupByPriority l).map Prod.snd).flatten) l := by
  have key : ∀ (l2 : List ImportNode) (acc : List (Int × List ImportNode)),
      List.Perm
        (((l2.foldl (fun acc r => groupInsert (getGroupKeyNode r) r acc) acc).map
          Prod.snd).flatten)
        ((acc.map Prod.snd).flatten ++ l2) := by
    intro l2
    induction l2 with
    | nil => intro acc; simp
    | cons r rest ih =>
      intro acc
      simp only [List.foldl_cons]
      refine (ih (groupInsert (getGroupKeyNode r) r acc)).trans ?_
      have h1 := groupInsert_flatten_perm (getGroupKeyNode r) r acc
      refine (List.Perm.append_right rest h1).trans ?_
      simp [List.append_assoc]
  simpa using key l []

theorem groupByPriority_good (l : List ImportNode) :
    ∀ p ∈ groupByPriority l, p.2 ≠ [] ∧ ∀ x ∈ p.2, getGroupKeyNode x = p.1 := by
  have key : ∀ (l2 : List ImportNode) (acc : List (Int × List ImportNode)),
      (∀ p ∈ acc, p.2 ≠ [] ∧ ∀ x ∈ p.2, getGroupKeyNode x = p.1) →
      ∀ p ∈ l2.foldl (fun acc r => groupInsert (getGroupKeyNode r) r acc) acc,
        p.2 ≠ [] ∧ ∀ x ∈ p.2, getGroupKeyNode x = p.1 := by
    intro l2
    induction l2 with
    | nil => intro acc hacc; exact hacc
    | cons r rest ih =>
      intro acc hacc
      simp only [List.foldl_cons]
      exact ih _ (groupInsert_mem rfl hacc)
  exact key l [] (by simp)

theorem groupByPriority_nodup_keys (l : List ImportNode) :
    ((groupByPriority l).map Prod.fst).Nodup := by
  have key : ∀ (l2 : List ImportNode) (acc : List (Int × List ImportNode)),
      (acc.map Prod.fst).Nodup →
      ((l2.foldl (fun acc r => groupInsert (getGroupKeyNode r) r acc) acc).map
        Prod.fst).Nodup := by
    intro l2
    induction l2 with
    | nil => intro acc hacc; exact hacc
    | cons r rest ih =>
      intro acc hacc
      simp only [List.foldl_cons]
      refine ih _ ?_
      rw [groupInsert_keys]
      split_ifs with h1
      · exact hacc
      · refine List.Nodup.append hacc (by simp) ?_
        intro a ha hb
        simp only [List.mem_singleton] at hb
        subst hb
        exact h1 ha
  exact key l [] (by simp)

theorem groupInsert_new {k : Int} {r : ImportNode} {acc : List (Int × List ImportNode)}
    (h : k ∉ acc.map Prod.fst) : groupInsert k r acc = acc ++ [(k, [r])] := by
  induction acc with
  | nil => rfl
  | cons p rest ih =>
    obtain ⟨k2, g⟩ := p
    simp only [groupInsert]
    rw [if_neg ?_]
    · rw [ih (fun hm => h (by simp [hm]))]
      simp
    · intro he
      exact h (by simp [he])

theorem groupInsert_append_last {k : Int} {r : ImportNode}
    {acc : List (Int × List ImportNode)} (g : List ImportNode)
    (h : k ∉ acc.map Prod.fst) :
    groupInsert k r (acc ++ [(k, g)]) = acc ++ [(k, g ++ [r])] := by
  induction acc with
  | nil => simp [groupInsert]
  | cons p rest ih =>
    obtain ⟨k2, g2⟩ := p
    simp only [List.cons_append, groupInsert]
    rw [if_neg ?_]
    · have h2 := ih (fun hm => h (by simp [hm]))
      show (k2, g2) :: groupInsert k r (rest ++ [(k, g)]) = (k2, g2) :: (rest ++ [(k, g ++ [r])])
      rw [h2]
    · intro he
      exact h (by simp [he])

theorem foldl_groupInsert_run {κ : Int} (G2 : List ImportNode)
    (rest : List ImportNode) (acc : List (Int × List ImportNode))
    (partial2 : List ImportNode)
    (hhom : ∀ x ∈ G2, getGroupKeyNode x = κ)
    (hacc : κ ∉ acc.map Prod.fst) :
    List.foldl (fun acc r => groupInsert (getGroupKeyNode r) r acc)
        (acc ++ [(κ, partial2)]) (G2 ++ rest) =
      List.foldl (fun acc r => groupInsert (getGroupKeyNode r) r acc)
        (acc ++ [(κ, partial2 ++ G2)]) rest := by
  induction G2 generalizing partial2 with
  | nil => simp
  | cons x G2tl ih =>
    simp only [List.cons_append, List.foldl_cons]
    rw [hhom x (by simp), groupInsert_append_last partial2 hacc]
    rw [ih (partial2 ++ [x]) (fun y hy => hhom y (by simp [hy]))]
    simp

theorem foldl_groupInsert_block {κ : Int} (G : List ImportNode)
    (rest : List ImportNode) (acc : List (Int × List ImportNode))
    (hG : G ≠ [])
    (hhom : ∀ x ∈ G, getGroupKeyNode x = κ)
    (hacc : κ ∉ acc.map Prod.fst) :
    List.foldl (fun acc r => groupInsert (getGroupKeyNode r) r acc) acc (G ++ rest) =
      List.foldl (fun acc r => groupInsert (getGroupKeyNode r) r acc)
        (acc ++ [(κ, G)]) rest := by
  cases G with
  | nil => exact absurd rfl hG
  | cons x G2 =>
    simp only [List.cons_append, List.foldl_cons]
    rw [hhom x (by simp), groupInsert_new hacc]
    have := foldl_groupInsert_run G2 rest acc [x] (fun y hy => hhom y (by simp [hy])) hacc
    rw [this]
    simp

theorem groupByPriority_blocks (blocks : List (Int × List ImportNode))
    (hne : ∀ p ∈ blocks, p.2 ≠ [])
    (hhom : ∀ p ∈ blocks, ∀ x ∈ p.2, getGroupKeyNode x = p.1)
    (hnd : (blocks.map Prod.fst).Nodup) :
    groupByPriority ((blocks.map Prod.snd).flatten) = blocks := by
  have key : ∀ (bl : List (Int × List ImportNode)) (acc : List (Int × List ImportNode)),
      (∀ p ∈ bl, p.2 ≠ []) → (∀ p ∈ bl, ∀ x ∈ p.2, getGroupKeyNode x = p.1) →
      ((bl.map Prod.fst).Nodup) →
      (∀ k2 ∈ bl.map Prod.fst, k2 ∉ acc.map Prod.fst) →
      List.foldl (fun acc r => groupInsert (getGroupKeyNode r) r acc) acc
          ((bl.map Prod.snd).flatten) = acc ++ bl := by
    intro bl
    induction bl with
    | nil => intro acc _ _ _ _; simp
    | cons p rest ih =>
      intro acc hne2 hhom2 hnd2 hdisj
      obtain ⟨κ, G⟩ := p
      simp only [List.map_cons, List.flatten_cons]
      rw [foldl_groupInsert_block G _ acc (hne2 (κ, G) (by simp))
        (hhom2 (κ, G) (by simp)) (hdisj κ (by simp))]
      have hnd3 : (κ :: rest.map Prod.fst).Nodup := by simpa using hnd2
      obtain ⟨hknotin, hndrest⟩ := List.nodup_cons.mp hnd3
      rw [ih (acc ++ [(κ, G)])
        (fun q hq => hne2 q (by simp [hq]))
        (fun q hq => hhom2 q (by simp [hq]))
        hndrest
        ?_]
      · simp
      · intro k2 hk2 hmem
        simp only [List.map_append, List.mem_append] at hmem
        rcases hmem with hmem | hmem
        · exact hdisj k2 (by simp [hk2]) hmem
        · simp only [List.map_cons, List.map_nil, List.mem_singleton] at hmem
          subst hmem
          exact hknotin hk2
  simpa using key blocks [] hne hhom hnd (by simp)

theorem flatten_map_sortGroup_perm (es : List (Int × List ImportNode)) :
    List.Perm ((es.map (fun p => sortImportsInGroup p.2)).flatten)
      ((es.map Prod.snd).flatten) := by
  induction es with
  | nil => simp
  | cons p rest ih =>
    simp only [List.map_cons, List.flatten_cons]
    exact List.Perm.append (sortImportsInGroup_perm p.2) ih

theorem expectedImports_perm (l : List ImportNode) :
    List.Perm (expectedImports l) l := by
  unfold expectedImports sortedGroups
  refine (flatten_map_sortGroup_perm _).trans ?_
  refine (List.Perm.flatten ?_).trans (groupByPriority_flatten_perm l)
  exact (jsSort_perm _ (groupByPriority l)).map Prod.snd

theorem expectedImports_length (l : List ImportNode) :
    (expectedImports l).length = l.length :=
  (expectedImports_perm l).length_eq

theorem mem_of_mem_sortedGroups {l : List ImportNode} {g : List ImportNode}
    {x : ImportNode} (hg : g ∈ sortedGroups l) (hx : x ∈ g) : x ∈ l := by
  unfold sortedGroups at hg
  obtain ⟨p, hp, rfl⟩ := List.mem_map.mp hg
  have hp2 : p ∈ groupByPriority l :=
    ((jsSort_perm (fun p q => cmpZ p.1 q.1) (groupByPriority l)).mem_iff).mp hp
  have hx2 : x ∈ p.2 := ((sortImportsInGroup_perm p.2).mem_iff).mp hx
  have hx3 : x ∈ ((groupByPriority l).map Prod.snd).flatten := by
    rw [List.mem_flatten]
    exact ⟨p.2, List.mem_map_of_mem Prod.snd hp2, hx2⟩
  exact (groupByPriority_flatten_perm l).mem_iff.mp hx3

theorem groupByPriority_expectedImports (l : List ImportNode) :
    groupByPriority (expectedImports l) =
      (jsSort (fun p q => cmpZ p.1 q.1) (groupByPriority l)).map
        (fun p => (p.1, sortImportsInGroup p.2)) := by
  have hflat : expectedImports l =
      (((jsSort (fun p q => cmpZ p.1 q.1) (groupByPriority l)).map
        (fun p => (p.1, sortImportsInGroup p.2))).map Prod.snd).flatten := by
    unfold expectedImports sortedGroups
    rw [List.map_map]
    rfl
  rw [hflat]
  apply groupByPriority_blocks
  · intro p hp
    obtain ⟨q, hq, rfl⟩ := List.mem_map.mp hp
    have hq2 : q ∈ groupByPriority l :=
      ((jsSort_perm (fun p q => cmpZ p.1 q.1) (groupByPriority l)).mem_iff).mp hq
    have hne := (groupByPriority_good l q hq2).1
    intro hnil
    have hlen := (sortImportsInGroup_perm q.2).length_eq
    rw [show sortImportsInGroup q.2 = ([] : List ImportNode) from hnil] at hlen
    simp only [List.length_nil] at hlen
    exact hne (List.length_eq_zero.mp hlen.symm)
  · intro p hp x hx
    obtain ⟨q, hq, rfl⟩ := List.mem_map.mp hp
    have hq2 : q ∈ groupByPriority l :=
      ((jsSort_perm (fun p q => cmpZ p.1 q.1) (groupByPriority l)).mem_iff).mp hq
    have hx2 : x ∈ q.2 := ((sortImportsInGroup_perm q.2).mem_iff).mp hx
    exact (groupByPriority_good l q hq2).2 x hx2
  · have hkeys : ((jsSort (fun p q => cmpZ p.1 q.1) (groupByPriority l)).map
        (fun p : Int × List ImportNode => (p.1, sortImportsInGroup p.2))).map Prod.fst =
        (jsSort (fun p q => cmpZ p.1 q.1) (groupByPriority l)).map Prod.fst := by
      rw [List.map_map]
      rfl
    rw [hkeys]
    have hperm : List.Perm
        ((jsSort (fun p q => cmpZ p.1 q.1) (groupByPriority l)).map Prod.fst)
        ((groupByPriority l).map Prod.fst) :=
      (jsSort_perm _ (groupByPriority l)).map Prod.fst
    exact hperm.nodup_iff.mpr (groupByPriority_nodup_keys l)

theorem sortedGroups_expectedImports (l : List ImportNode) :
    sortedGroups (expectedImports l) = sortedGroups l := by
  have hswapZ : CmpSwap (fun p q : Int × List ImportNode => cmpZ p.1 q.1) :=
    keyed_swap (fun p : Int × List ImportNode => p.1) cmpZ_swap
  have htrZ : CmpLeTrans (fun p q : Int × List ImportNode => cmpZ p.1 q.1) :=
    keyed_leTrans (fun p : Int × List ImportNode => p.1) cmpZ_leTrans
  unfold sortedGroups
  rw [groupByPriority_expectedImports]
  have hsorted : List.Sorted
      (fun p q : Int × List ImportNode => cmpZ p.1 q.1 ≠ Ordering.gt)
      (jsSort (fun p q => cmpZ p.1 q.1) (groupByPriority l)) :=
    jsSort_sorted hswapZ htrZ (groupByPriority l)
  have hsorted2 : List.Sorted
      (fun p q : Int × List ImportNode => cmpZ p.1 q.1 ≠ Ordering.gt)
      ((jsSort (fun p q => cmpZ p.1 q.1) (groupByPriority l)).map
        (fun p => (p.1, sortImportsInGroup p.2))) := by
    rw [List.Sorted, List.pairwise_map]
    exact hsorted
  rw [jsSort_eq_self hsorted2, List.map_map]
  apply List.map_congr_left
  intro p hp
  show sortImportsInGroup (sortImportsInGroup p.2) = sortImportsInGroup p.2
  exact sortImportsInGroup_idem p.2

theorem expectedImports_idem (l : List ImportNode) :
    expectedImports (expectedImports l) = expectedImports l := by
  show (sortedGroups (expectedImports l)).flatten = expectedImports l
  rw [sortedGroups_expectedImports]
  rfl

theorem fixedRecords_eq_expected {l : List ImportNode}
    (h : ∀ r ∈ l, areIdentifiersSortedNode r = true) :
    fixedRecords l = expectedImports l := by
  unfold fixedRecords expectedImports
  have h2 : (sortedGroups l).map (fun g => g.map regenRecord) = (sortedGroups l).map id := by
    apply List.map_congr_left
    intro g hg
    have h3 : ∀ x ∈ g, regenRecord x = x :=
      fun x hx => regenRecord_eq_self (h x (mem_of_mem_sortedGroups hg hx))
    calc g.map regenRecord = g.map id := List.map_congr_left h3
      _ = g := List.map_id g
  rw [h2, List.map_id]

theorem idMismatch_self (a : ImportIdentifier) : idMismatch a a = false := by
  simp [idMismatch]

theorem recordMismatch_self (r : ImportNode) : recordMismatch r r = false := by
  unfold recordMismatch
  simp only [Bool.or_eq_false_iff]
  constructor
  · simp
  · induction r.identifiers with
    | nil => rfl
    | cons a rest ih =>
      simp only [List.zip_cons_cons, List.any_cons, idMismatch_self, Bool.false_or]
      exact ih

theorem walkRest_self_false {prev : ImportNode} {rest : List ImportNode} {gaps : List Nat}
    (hids : ∀ r ∈ rest, areIdentifiersSortedNode r = true)
    (hadj : adjacentGapsOK prev rest gaps) :
    walkRest prev rest rest gaps = false := by
  induction rest generalizing prev gaps with
  | nil => rfl
  | cons cur rest2 ih =>
    obtain ⟨hadj1, hadj2⟩ := hadj
    unfold walkRest
    rw [if_neg (by simp [hids cur (by simp)])]
    rw [if_neg ?_]
    · rw [if_neg (by simp [recordMismatch_self])]
      show walkRest cur rest2 rest2 gaps.tail = false
      exact ih (fun r hr => hids r (by simp [hr])) hadj2
    · intro hcond
      have := hadj1 hcond.1
      omega

theorem evalRecords_self_false {l : List ImportNode} {gaps : List Nat}
    (hids : ∀ r ∈ l, areIdentifiersSortedNode r = true)
    (hadj : ∀ r rest, l = r :: rest → adjacentGapsOK r rest gaps) :
    evalRecords l l gaps = false := by
  cases l with
  | nil => rfl
  | cons r rest =>
    show (if ¬areIdentifiersSortedNode r = true then true
      else if (match (r :: rest : List ImportNode).head? with
        | some e => recordMismatch r e
        | none => false) = true then true
      else walkRest r rest (r :: rest : List ImportNode).tail gaps) = false
    rw [if_neg (by simp [hids r (by simp)])]
    rw [if_neg (by simp [recordMismatch_self])]
    show walkRest r rest rest gaps = false
    exact walkRest_self_false (fun x hx => hids x (by simp [hx])) (hadj r rest rfl)

theorem adjacentGapsOK_flatten (groups : List (List ImportNode)) :
    ∀ (prev : ImportNode) (gtail : List ImportNode),
      (∀ x ∈ gtail, getGroupKeyNode x = getGroupKeyNode prev) →
      (∀ g ∈ groups, g ≠ []) →
      (∀ g ∈ groups, ∀ x ∈ g, ∀ y ∈ g, getGroupKeyNode x = getGroupKeyNode y) →
      adjacentGapsOK prev (gtail ++ groups.flatten)
        (List.replicate gtail.length 1 ++
          (if groups.isEmpty then [] else 2 :: gapsOfGroups groups)) := by
  induction groups with
  | nil =>
    intro prev gtail hg _ _
    induction gtail generalizing prev with
    | nil => trivial
    | cons x gt2 ihg =>
      refine ⟨?_, ?_⟩
      · intro hk
        exact absurd (hg x (by simp)) hk
      · simp only [List.flatten_nil, List.append_nil, List.length_cons,
          List.replicate_succ, List.cons_append, List.tail_cons] at *
        have := ihg x (fun y hy => (hg y (by simp [hy])).trans (hg x (by simp)).symm)
        simpa using this
  | cons G2 groups2 ih =>
    intro prev gtail hg hne hhom
    induction gtail generalizing prev with
    | nil =>
      cases G2 with
      | nil => exact absurd rfl (hne [] (by simp))
      | cons q gt2 =>
        have hhomG2 : ∀ x ∈ gt2, getGroupKeyNode x = getGroupKeyNode q :=
          fun x hx => hhom (q :: gt2) (by simp) x (by simp [hx]) q (by simp)
        have key := ih q gt2 hhomG2 (fun g hgm => hne g (by simp [hgm]))
          (fun g hgm => hhom g (by simp [hgm]))
        have hgaps : gapsOfGroups ((q :: gt2) :: groups2) =
            List.replicate gt2.length 1 ++
              (if groups2.isEmpty then [] else 2 :: gapsOfGroups groups2) := by
          cases groups2 with
          | nil => simp [gapsOfGroups, innerGaps]
          | cons g3 groups3 =>
            show innerGaps (q :: gt2) ++ 2 :: gapsOfGroups (g3 :: groups3) = _
            simp [innerGaps]
        show adjacentGapsOK prev (q :: (gt2 ++ groups2.flatten))
          (2 :: gapsOfGroups ((q :: gt2) :: groups2))
        refine ⟨fun _ => ?_, ?_⟩
        · show 2 ≤ (2 :: gapsOfGroups ((q :: gt2) :: groups2)).headD 0
          simp
        · show adjacentGapsOK q (gt2 ++ groups2.flatten)
            (gapsOfGroups ((q :: gt2) :: groups2))
          rw [hgaps]
          exact key
    | cons x gt2 ihg =>
      refine ⟨?_, ?_⟩
      · intro hk
        exact absurd (hg x (by simp)) hk
      · simp only [List.length_cons, List.replicate_succ, List.cons_append, List.tail_cons]
        exact ihg x (fun y hy => (hg y (by simp [hy])).trans (hg x (by simp)).symm)

theorem sortedGroups_good (l : List ImportNode) :
    ∀ g ∈ sortedGroups l, g ≠ [] ∧
      ∀ x ∈ g, ∀ y ∈ g, getGroupKeyNode x = getGroupKeyNode y := by
  intro g hg
  unfold sortedGroups at hg
  obtain ⟨p, hp, rfl⟩ := List.mem_map.mp hg
  have hp2 : p ∈ groupByPriority l :=
    ((jsSort_perm (fun p q => cmpZ p.1 q.1) (groupByPriority l)).mem_iff).mp hp
  obtain ⟨hne, hkey⟩ := groupByPriority_good l p hp2
  constructor
  · intro hnil
    have hlen := (sortImportsInGroup_perm p.2).length_eq
    rw [show sortImportsInGroup p.2 = ([] : List ImportNode) from hnil] at hlen
    simp only [List.length_nil] at hlen
    exact hne (List.length_eq_zero.mp hlen.symm)
  · intro x hx y hy
    have hx2 : x ∈ p.2 := ((sortImportsInGroup_perm p.2).mem_iff).mp hx
    have hy2 : y ∈ p.2 := ((sortImportsInGroup_perm p.2).mem_iff).mp hy
    rw [hkey x hx2, hkey y hy2]

theorem gapsOfGroups_cons (q : ImportNode) (gt : List ImportNode)
    (grs : List (List ImportNode)) :
    gapsOfGroups ((q :: gt) :: grs) =
      List.replicate gt.length 1 ++
        (if grs.isEmpty then [] else 2 :: gapsOfGroups grs) := by
  cases grs with
  | nil => simp [gapsOfGroups, innerGaps]
  | cons g3 groups3 =>
    show innerGaps (q :: gt) ++ 2 :: gapsOfGroups (g3 :: groups3) = _
    simp [innerGaps]

theorem needsReordering_fixed_false {l : List ImportNode}
    (h : ∀ r ∈ l, areIdentifiersSortedNode r = true) :
    needsReordering (fixedRecords l) (fixedGaps l) = false := by
  have hfix : fixedRecords l = expectedImports l := fixedRecords_eq_expected h
  have hexp : expectedImports (fixedRecords l) = fixedRecords l := by
    rw [hfix, expectedImports_idem l]
  unfold needsReordering
  rw [hexp, if_pos rfl]
  apply evalRecords_self_false
  · intro r hr
    apply h
    rw [hfix] at hr
    exact (expectedImports_perm l).mem_iff.mp hr
  · intro r rest hl
    have hflat : fixedRecords l = (sortedGroups l).flatten := by
      rw [hfix]
      rfl
    rcases hsg : sortedGroups l with _ | ⟨G1, grs⟩
    · rw [hflat, hsg] at hl
      simp at hl
    · rcases hG1 : G1 with _ | ⟨q, gt⟩
      · exact absurd (hG1 ▸ (sortedGroups_good l G1 (by rw [hsg]; simp)).1) (by simp [hG1])
      · rw [hflat, hsg, hG1] at hl
        simp only [List.flatten_cons, List.cons_append] at hl
        obtain ⟨hq, hrest⟩ := List.cons.injEq .. ▸ hl
        have hgood1 := sortedGroups_good l G1 (by rw [hsg]; simp)
        have hhomG1 : ∀ x ∈ gt, getGroupKeyNode x = getGroupKeyNode q := by
          intro x hx
          exact hgood1.2 x (by rw [hG1]; simp [hx]) q (by rw [hG1]; simp)
        have hkey := adjacentGapsOK_flatten grs q gt hhomG1
          (fun g hgm => (sortedGroups_good l g (by rw [hsg]; simp [hgm])).1)
          (fun g hgm => (sortedGroups_good l g (by rw [hsg]; simp [hgm])).2)
        have hgaps : fixedGaps l = List.replicate gt.length 1 ++
            (if grs.isEmpty then [] else 2 :: gapsOfGroups grs) := by
          unfold fixedGaps
          rw [hsg, hG1]
          exact gapsOfGroups_cons q gt grs
        rw [hgaps, ← hq, ← hrest]
        exact hkey

theorem walkRest_false_imp_adj {prev : ImportNode} {curs exp : List ImportNode}
    {gaps : List Nat} (h : walkRest prev curs exp gaps = false) :
    adjacentGapsOK prev curs gaps := by
  induction curs generalizing prev exp gaps with
  | nil => trivial
  | cons cur rest ih =>
    have h2 : (if ¬areIdentifiersSortedNode cur = true then true
        else if getGroupKeyNode cur ≠ getGroupKeyNode prev ∧ gaps.headD 0 < 2 then true
        else if (match exp.head? with
          | some e => recordMismatch cur e
          | none => false) = true then true
        else walkRest cur rest exp.tail gaps.tail) = false := h
    split_ifs at h2 with hc1 hc2 hc3
    refine ⟨?_, ih h2⟩
    intro hk
    by_contra hlt
    exact hc2 ⟨hk, by omega⟩

theorem evalRecords_false_imp_adj {l exp : List ImportNode} {gaps : List Nat}
    (h : evalRecords l exp gaps = false) :
    ∀ r rest, l = r :: rest → adjacentGapsOK r rest gaps := by
  intro r rest hl
  subst hl
  have h2 : (if ¬areIdentifiersSortedNode r = true then true
      else if (match exp.head? with
        | some e => recordMismatch r e
        | none => false) = true then true
      else walkRest r rest exp.tail gaps) = false := h
  split_ifs at h2 with hc1 hc2
  exact walkRest_false_imp_adj h2

theorem gaps_getD_zero (gaps : List Nat) : gaps.getD 0 0 = gaps.headD 0 := by
  cases gaps <;> rfl

theorem gaps_getD_succ (gaps : List Nat) (i : Nat) :
    gaps.getD (i + 1) 0 = gaps.tail.getD i 0 := by
  cases gaps <;> simp

theorem adjacentGapsOK_get {r : ImportNode} {rest : List ImportNode} {gaps : List Nat}
    (h : adjacentGapsOK r rest gaps) :
    ∀ (i : Nat) (hi : i + 1 < (r :: rest).length),
      getGroupKeyNode ((r :: rest).get ⟨i + 1, hi⟩) ≠
          getGroupKeyNode ((r :: rest).get ⟨i, by omega⟩) →
      2 ≤ gaps.getD i 0 := by
  induction rest generalizing r gaps with
  | nil =>
    intro i hi
    simp at hi
  | cons cur rest2 ih =>
    intro i hi hk
    obtain ⟨h1, h2⟩ := h
    cases i with
    | zero =>
      rw [gaps_getD_zero]
      apply h1
      simpa using hk
    | succ j =>
      rw [gaps_getD_succ]
      have hi2 : j + 1 < (cur :: rest2).length := by simpa using hi
      apply ih h2 j hi2
      have e1 : (r :: cur :: rest2).get ⟨j + 2, hi⟩ = (cur :: rest2).get ⟨j + 1, hi2⟩ := rfl
      have e2 : (r :: cur :: rest2).get ⟨j + 1, by omega⟩ =
          (cur :: rest2).get ⟨j, by omega⟩ := rfl
      rw [e1, e2] at hk
      exact hk

theorem regenRecord_sorted (r : ImportNode) :
    areIdentifiersSortedNode (regenRecord r) = true := by
  obtain ⟨src, txt, ty, ids, ito⟩ := r
  cases ty with
  | sideEffect => rfl
  | namespaceImport => rfl
  | defaultImport =>
    cases ids with
    | nil => rfl
    | cons d rest =>
      cases rest with
      | nil => rfl
      | cons n2 rest2 =>
        have hlen : (jsSort sortIdentifiersCmp (n2 :: rest2)).length = rest2.length + 1 := by
          have h := (jsSort_perm sortIdentifiersCmp (n2 :: rest2)).length_eq
          simpa using h
        show areIdentifiersSortedNode
          ⟨src, txt, .defaultImport, d :: jsSort sortIdentifiersCmp (n2 :: rest2), ito⟩ = true
        unfold areIdentifiersSortedNode
        simp only [List.length_cons, hlen]
        rw [if_neg (by omega)]
        show areIdentifiersSorted (jsSort sortIdentifiersCmp (n2 :: rest2)) = true
        exact areIdentifiersSorted_sortIdentifiers (n2 :: rest2)
  | named =>
    show areIdentifiersSortedNode ⟨src, txt, .named, jsSort sortIdentifiersCmp ids, ito⟩ = true
    show areIdentifiersSorted (jsSort sortIdentifiersCmp ids) = true
    exact areIdentifiersSorted_sortIdentifiers ids

theorem fixedRecords_all_sorted (l : List ImportNode) :
    ∀ r ∈ fixedRecords l, areIdentifiersSortedNode r = true := by
  intro r hr
  unfold fixedRecords at hr
  rw [List.mem_flatten] at hr
  obtain ⟨g, hg, hrg⟩ := hr
  rw [List.mem_map] at hg
  obtain ⟨g0, _, hmap⟩ := hg
  rw [← hmap, List.mem_map] at hrg
  obtain ⟨r0, _, hre⟩ := hrg
  rw [← hre]
  exact regenRecord_sorted r0

/-- C1: the reconciler applied to the fixer's own output reports no change,
provided every record of the original block already had sorted bindings; a
statement regenerated by the generator is always judged binding-sorted, so a
second application of the fixer is always a fixpoint.  (Unconditional
idempotence fails: see the counterexample.) -/
theorem claim_C1 :
    (∀ r : ImportNode, areIdentifiersSortedNode (regenRecord r) = true) ∧
    (∀ l : List ImportNode, (∀ r ∈ l, areIdentifiersSortedNode r = true) →
      needsReordering (fixedRecords l) (fixedGaps l) = false) ∧
    (∀ l : List ImportNode,
      needsReordering (fixedRecords (fixedRecords l)) (fixedGaps (fixedRecords l)) = false) :=
  ⟨regenRecord_sorted,
   fun _ h => needsReordering_fixed_false h,
   fun l => needsReordering_fixed_false (fixedRecords_all_sorted l)⟩

/-- C1 counterexample: on a block whose first statement has unsorted
bindings, the reconciler still demands a change on the fixer's output, and a
second run of the fixer produces a different block than the first. -/
theorem claim_C1_counterexample :
    needsReordering (fixedRecords [cxUnsorted, cxOther]) (fixedGaps [cxUnsorted, cxOther]) =
      true ∧
    fixedRecords (fixedRecords [cxUnsorted, cxOther]) ≠ fixedRecords [cxUnsorted, cxOther] := by
  decide

/-- C1 witness: the conditions of the amended claim hold at concrete
inputs. -/
theorem claim_C1_witness :
    areIdentifiersSortedNode (regenRecord cxUnsorted) = true ∧
    needsReordering (fixedRecords [cxOther]) (fixedGaps [cxOther]) = false :=
  ⟨claim_C1.1 cxUnsorted, claim_C1.2.1 [cxOther] (by decide)⟩

/-- C2 evaluation: the priority function the rule calls gives the
current-directory group a strictly smaller key than every parent-relative
group, so the reconciler's expected order puts `./helper` before
`../utils` — the opposite of the claimed order — while the classifier-based
key of `compare.ts` (and the priority module's own test suite) orders
parent-relative (59) before current-directory (60). -/
theorem claim_C2 :
    getImportGroupPriority (str "./helper") < getImportGroupPriority (str "../utils") ∧
    groupByPriority [c2Parent, c2Current] = [(4999, [c2Parent]), (6, [c2Current])] ∧
    expectedImports [c2Parent, c2Current] = [c2Current, c2Parent] ∧
    getGroupKey (classifyImportGroup (str "../utils")) = 59 ∧
    getGroupKey (classifyImportGroup (str "./helper")) = 60 := by
  decide

/-- C3 evaluation: the classifier does put `$lib/stores` in the dollar-alias
group with alias `$lib`, and that group is distinct from bare imports under
the classifier-based key, but the priority function the rule actually calls
sends `$lib/stores` to key 3 — the bare-import key — so in the pipeline the
dollar-aliased import is bucketed into the very same group as `react`. -/
theorem claim_C3 :
    classifyImportGroup (str "$lib/stores") =
      ImportGroupClassification.dollarAliased (str "$lib") ∧
    getGroupKey (ImportGroupClassification.dollarAliased (str "$lib")) ≠
      getGroupKey (ImportGroupClassification.bareImport false) ∧
    getImportGroupPriority (str "$lib/stores") = 3 ∧
    getImportGroupPriority (str "react") = 3 ∧
    groupByPriority [c3Bare, c3Dollar] = [(3, [c3Bare, c3Dollar])] := by
  decide

/-- C4: a specifier starting with `@` (code 64) that does not carry the
literal `@/` prefix classifies as a scoped bare import, while any specifier
starting with `@/` classifies as the at-alias group. -/
theorem claim_C4 :
    (∀ rest : Str, ¬((str "@/").isPrefixOf (64 :: rest) = true) →
      classifyImportGroup (64 :: rest) = ImportGroupClassification.bareImport true) ∧
    (∀ t : Str, classifyImportGroup (64 :: 47 :: t) = ImportGroupClassification.atAliased) := by
  constructor
  · intro rest h
    rw [ List.isPrefixOf_iff_prefix] at h
    have hstr : str "@/" = [64, 47] := rfl
    rw [hstr] at h
    simp only [List.cons_prefix_cons, true_and] at h
    have h58 : (64 == 58) = false := rfl
    have h64 : lowerN 64 = 64 := rfl
    have hL : isLetterN 64 = false := rfl
    have hp : parentDepthOf (64 :: rest) = 0 := rfl
    unfold classifyImportGroup
    simp only [List.findIdx_cons, h58, cond_false, List.take_succ_cons]
    norm_num
    simp [lowerStr, h64, RUNTIME_NAMESPACES, REGISTRY_NAMESPACES, str, isAlphaWordStr, hL,
      List.cons_prefix_cons, h, hp]
  · intro t
    have h58 : (64 == 58) = false := rfl
    have h64 : lowerN 64 = 64 := rfl
    have hL : isLetterN 64 = false := rfl
    unfold classifyImportGroup
    simp only [List.findIdx_cons, h58, cond_false, List.take_succ_cons]
    norm_num
    simp [lowerStr, h64, RUNTIME_NAMESPACES, REGISTRY_NAMESPACES, str, isAlphaWordStr, hL,
      List.cons_prefix_cons]

/-- C4 witness: the two classifier branches at the spec's own examples. -/
theorem claim_C4_witness :
    classifyImportGroup (str "@angular/core") = ImportGroupClassification.bareImport true ∧
    classifyImportGroup (str "@/utils") = ImportGroupClassification.atAliased := by
  have h1 : str "@angular/core" = 64 :: str "angular/core" := rfl
  have h2 : str "@/utils" = 64 :: 47 :: str "utils" := rfl
  exact ⟨h1 ▸ claim_C4.1 (str "angular/core") (by decide),
         h2 ▸ claim_C4.2 (str "utils")⟩

/-- C5: for every record and every preference set, generation agrees with
the type-only shape when the statement is marked type-only (a single
statement-level `type ` marker and every binding rendered marker-free) and
with the value shape otherwise (no statement-level marker, each binding
carrying `type ` exactly when flagged); the renderer with suppression never
adds a marker and without suppression adds it exactly for flagged bindings,
so no output marks both levels at once. -/
theorem claim_C5 (info : ImportNode) (prefs : FormattingPreferences) :
    generateImportStatement info prefs =
      (if info.isTypeOnly then
        typeOnlyShape info (if prefs.useSingleQuotes then 39 else 34)
      else
        valueShape info (if prefs.useSingleQuotes then 39 else 34)) ∧
    (∀ id : ImportIdentifier, formatIdentifier id true = plainIdentifier id) ∧
    (∀ id : ImportIdentifier, formatIdentifier id false = markedIdentifier id) := by
  have hf2 : ∀ id, formatIdentifier id false = markedIdentifier id := by
    intro id
    simp [formatIdentifier, markedIdentifier, plainIdentifier]
  have hf : (fun id => formatIdentifier id false) = markedIdentifier := funext hf2
  refine ⟨?_, ?_, hf2⟩
  · obtain ⟨src, txt, ty, ids, ito⟩ := info
    cases ty with
    | sideEffect => cases ito <;> rfl
    | namespaceImport => rcases ids with _ | ⟨id1, rest⟩ <;> cases ito <;> rfl
    | defaultImport =>
      rcases ids with _ | ⟨d, _ | ⟨n2, rest⟩⟩ <;> cases ito
      · rfl
      · rfl
      · calc generateImportStatement ⟨src, txt, ImportType.defaultImport, [d], false⟩ prefs
            = Except.ok (str "import " ++ formatIdentifier d false ++ str " from " ++
              [if prefs.useSingleQuotes then 39 else 34] ++ src ++
              [if prefs.useSingleQuotes then 39 else 34, 59]) := rfl
          _ = _ := by rw [hf2 d]; rfl
      · rfl
      · calc generateImportStatement
              ⟨src, txt, ImportType.defaultImport, d :: n2 :: rest, false⟩ prefs
            = Except.ok (str "import " ++ formatIdentifier d false ++ str ", \x7b " ++
              List.intercalate (str ", ")
                ((jsSort sortIdentifiersCmp (n2 :: rest)).map
                  (fun id => formatIdentifier id false)) ++
              str " \x7d from " ++ [if prefs.useSingleQuotes then 39 else 34] ++ src ++
              [if prefs.useSingleQuotes then 39 else 34, 59]) := rfl
          _ = _ := by rw [hf2 d, hf]; rfl
      · rfl
    | named =>
      cases ito with
      | true => rfl
      | false =>
        calc generateImportStatement ⟨src, txt, ImportType.named, ids, false⟩ prefs
            = Except.ok (str "import \x7b " ++
              List.intercalate (str ", ")
                ((jsSort sortIdentifiersCmp ids).map (fun id => formatIdentifier id false)) ++
              str " \x7d from " ++ [if prefs.useSingleQuotes then 39 else 34] ++ src ++
              [if prefs.useSingleQuotes then 39 else 34, 59]) := rfl
          _ = _ := by rw [hf]; rfl
  · intro id
    simp [formatIdentifier, plainIdentifier]

/-- C5 witness: a type-only named record generates with the one statement
marker and unmarked bindings; a hybrid default-plus-named value record
generates with a per-binding marker on exactly its flagged binding. -/
theorem claim_C5_witness :
    generateImportStatement c5Rec ⟨true, false⟩ =
      Except.ok (str "import type \x7b Config, useState \x7d from 'react';") ∧
    generateImportStatement c5Hybrid ⟨true, false⟩ =
      Except.ok (str "import d, \x7b type Config, useState \x7d from 'react';") := by
  constructor
  · have h := (claim_C5 c5Rec ⟨true, false⟩).1
    rw [h]
    rfl
  · have h := (claim_C5 c5Hybrid ⟨true, false⟩).1
    rw [h]
    rfl

/-- C6: the generator fails exactly on a namespace or default record with an
empty binding list; every side-effect record and every named record (even
with zero bindings) generates successfully. -/
theorem claim_C6 (info : ImportNode) (prefs : FormattingPreferences) :
    (∃ e, generateImportStatement info prefs = Except.error e) ↔
      ((info.type = ImportType.namespaceImport ∨ info.type = ImportType.defaultImport) ∧
        info.identifiers = []) := by
  obtain ⟨src, txt, ty, ids, ito⟩ := info
  cases ty <;> cases ids <;> simp [generateImportStatement]
  case defaultImport.cons d rest =>
    cases rest <;> simp [generateImportStatement]

/-- C7: when the first characters of two binding names agree after
lower-casing but differ in case, the binding comparator puts the
uppercase-first name strictly earlier; sorting the pair
`customType` / `CustomTypeValues` therefore yields the uppercase-first
order. -/
theorem claim_C7 :
    (∀ (a b : Nat) (xs ys : Str), lowerN a = lowerN b → a ≠ b → isUpperN a = true →
      identifierNameCmp (a :: xs) (b :: ys) = Ordering.lt) ∧
    (sortIdentifiers
        [⟨str "customType", none, none⟩,
         ⟨str "CustomTypeValues", none, some true⟩]).map ImportIdentifier.imported =
      [str "CustomTypeValues", str "customType"] := by
  constructor
  · intro a b xs ys hl hne hupA
    have hupB : isUpperN b = false := by
      rcases lower_eq_ne_case hl hne with ⟨_, hB, _, _⟩ | ⟨_, hA, _, _⟩
      · exact hB
      · rw [hupA] at hA
        cases hA
    show (if lowerN a = lowerN b ∧ a ≠ b then
        if isUpperN a = true ∧ ¬isUpperN b = true then Ordering.lt
        else if ¬isUpperN a = true ∧ isUpperN b = true then Ordering.gt
        else localeCmpVariant (a :: xs) (b :: ys)
      else localeCmpVariant (a :: xs) (b :: ys)) = Ordering.lt
    rw [if_pos ⟨hl, hne⟩, if_pos ⟨hupA, by simp [hupB]⟩]
  · decide

/-- C7 witness: the case rule applied at the spec's concrete first
characters (`C` versus `c`). -/
theorem claim_C7_witness :
    identifierNameCmp (str "CustomTypeValues") (str "customType") = Ordering.lt := by
  have h1 : str "CustomTypeValues" = 67 :: str "ustomTypeValues" := rfl
  have h2 : str "customType" = 99 :: str "ustomType" := rfl
  rw [h1, h2]
  exact claim_C7.1 67 99 (str "ustomTypeValues") (str "ustomType")
    (by decide) (by decide) (by decide)

/-- C8: on a block already in the expected order with every binding list
sorted, the reconciler still demands a fix whenever two adjacent records
carry different group keys and fewer than two newlines stand between them
(no blank line). -/
theorem claim_C8 (imports : List ImportNode) (gaps : List Nat)
    (hexp : expectedImports imports = imports)
    (hsorted : ∀ r ∈ imports, areIdentifiersSortedNode r = true)
    (i : Nat) (hi : i + 1 < imports.length)
    (hkey : getGroupKeyNode (imports.get ⟨i + 1, hi⟩) ≠
      getGroupKeyNode (imports.get ⟨i, by omega⟩))
    (hgap : gaps.getD i 0 < 2) :
    needsReordering imports gaps = true := by
  rcases himp : imports with _ | ⟨r, rest⟩
  · rw [himp] at hi
    simp at hi
  · subst himp
    by_contra hfalse
    rw [Bool.not_eq_true] at hfalse
    unfold needsReordering at hfalse
    rw [hexp, if_pos rfl] at hfalse
    have hadj := evalRecords_false_imp_adj hfalse r rest rfl
    exact absurd (adjacentGapsOK_get hadj i hi hkey) (by omega)

/-- C8 witness: a two-record block in correct order, sorted bindings, one
newline between the two groups — flagged. -/
theorem claim_C8_witness : needsReordering [c8React, c8Helper] [1] = true :=
  claim_C8 [c8React, c8Helper] [1] (by decide) (by decide) 0 (by decide) (by decide) (by decide)

theorem generate_quote_shape (info : ImportNode) (prefs : FormattingPreferences) (out : Str)
    (h : generateImportStatement info prefs = Except.ok out) :
    ∃ pre, out = pre ++ [if prefs.useSingleQuotes then 39 else 34] ++ info.source ++
      [if prefs.useSingleQuotes then 39 else 34, 59] := by
  obtain ⟨src, txt, ty, ids, ito⟩ := info
  cases ty with
  | sideEffect =>
    simp only [generateImportStatement] at h
    exact ⟨str "import " ++ (if ito then str "type " else []), by injection h with h2; exact h2.symm⟩
  | namespaceImport =>
    cases ids with
    | nil => simp [generateImportStatement] at h
    | cons id rest =>
      simp only [generateImportStatement] at h
      exact ⟨str "import " ++ (if ito then str "type " else []) ++ str "* as " ++
        id.imported ++ str " from ", by injection h with h2; exact h2.symm⟩
  | defaultImport =>
    cases ids with
    | nil => simp [generateImportStatement] at h
    | cons d rest =>
      cases rest with
      | nil =>
        simp only [generateImportStatement] at h
        exact ⟨str "import " ++ (if ito then str "type " else []) ++
          formatIdentifier d ito ++ str " from ", by injection h with h2; exact h2.symm⟩
      | cons n2 rest2 =>
        simp only [generateImportStatement] at h
        exact ⟨str "import " ++ (if ito then str "type " else []) ++
          formatIdentifier d ito ++ str ", \x7b " ++
          List.intercalate (str ", ")
            ((jsSort sortIdentifiersCmp (n2 :: rest2)).map
              (fun id => formatIdentifier id ito)) ++ str " \x7d from ", by injection h with h2; exact h2.symm⟩
  | named =>
    simp only [generateImportStatement] at h
    exact ⟨str "import " ++ (if ito then str "type " else []) ++ str "\x7b " ++
      List.intercalate (str ", ")
        ((jsSort sortIdentifiersCmp ids).map (fun id => formatIdentifier id ito)) ++
      str " \x7d from ", by injection h with h2; exact h2.symm⟩

/-- C9: the preference detector is a function of the statement's own
original text alone (the surrounding source text never matters); a text
whose quoted specifiers are double-only yields double quotes, a single-only
text yields single quotes, and the generator places the chosen quote around
the module specifier. -/
theorem claim_C9 :
    (∀ (t1 t2 : Str) (it : Option Str),
      detectFormattingPreferences t1 it = detectFormattingPreferences t2 it) ∧
    (∀ (s t : Str),
      (hasKwQuote (str "from") 34 t || hasKwQuote (str "import") 34 t) = true →
      (hasKwQuote (str "from") 39 t || hasKwQuote (str "import") 39 t) = false →
      detectFormattingPreferences s (some t) = ⟨false, false⟩) ∧
    (∀ (s t : Str),
      (hasKwQuote (str "from") 39 t || hasKwQuote (str "import") 39 t) = true →
      (hasKwQuote (str "from") 34 t || hasKwQuote (str "import") 34 t) = false →
      detectFormattingPreferences s (some t) = ⟨true, false⟩) ∧
    (∀ (info : ImportNode) (prefs : FormattingPreferences) (out : Str),
      generateImportStatement info prefs = Except.ok out →
      ∃ pre, out = pre ++ [if prefs.useSingleQuotes then 39 else 34] ++ info.source ++
        [if prefs.useSingleQuotes then 39 else 34, 59]) := by
  refine ⟨?_, ?_, ?_, generate_quote_shape⟩
  · intro t1 t2 it
    cases it <;> rfl
  · intro s t h34 h39
    show (if ((hasKwQuote (str "from") 39 t || hasKwQuote (str "import") 39 t) &&
          !(hasKwQuote (str "from") 34 t || hasKwQuote (str "import") 34 t)) = true then
        (⟨true, false⟩ : FormattingPreferences)
      else if ((hasKwQuote (str "from") 34 t || hasKwQuote (str "import") 34 t) &&
          !(hasKwQuote (str "from") 39 t || hasKwQuote (str "import") 39 t)) = true then
        ⟨false, false⟩
      else ⟨true, false⟩) = ⟨false, false⟩
    rw [h34, h39]
    rfl
  · intro s t h39 h34
    show (if ((hasKwQuote (str "from") 39 t || hasKwQuote (str "import") 39 t) &&
          !(hasKwQuote (str "from") 34 t || hasKwQuote (str "import") 34 t)) = true then
        (⟨true, false⟩ : FormattingPreferences)
      else if ((hasKwQuote (str "from") 34 t || hasKwQuote (str "import") 34 t) &&
          !(hasKwQuote (str "from") 39 t || hasKwQuote (str "import") 39 t)) = true then
        ⟨false, false⟩
      else ⟨true, false⟩) = ⟨true, false⟩
    rw [h34, h39]
    rfl

/-- C9 witness: a double-only and a single-only statement text at concrete
inputs. -/
theorem claim_C9_witness :
    detectFormattingPreferences [] (some (str "import \x7b a \x7d from \"m\";")) =
      ⟨false, false⟩ ∧
    detectFormattingPreferences [] (some (str "import \x7b a \x7d from 'm';")) =
      ⟨true, false⟩ :=
  ⟨claim_C9.2.1 [] (str "import \x7b a \x7d from \"m\";") (by decide) (by decide),
   claim_C9.2.2.1 [] (str "import \x7b a \x7d from 'm';") (by decide) (by decide)⟩

/-- C10: the preference detector reports `useTrailingComma = false` on every
input (even an original written with a trailing comma), and the generator
joins braced bindings with `, ` separators only — in the named branch and in
the hybrid default-plus-named branch alike — so no regenerated statement
carries a trailing comma before the closing brace; at the concrete
trailing-comma originals (named and hybrid) the regenerated statements drop
the comma. -/
theorem claim_C10 :
    (∀ (s : Str) (t : Option Str),
      (detectFormattingPreferences s t).useTrailingComma = false) ∧
    (∀ (src txt : Str) (ids : List ImportIdentifier) (ito : Bool)
      (prefs : FormattingPreferences),
      generateImportStatement ⟨src, txt, ImportType.named, ids, ito⟩ prefs =
        Except.ok (str "import " ++ (if ito then str "type " else []) ++ str "\x7b " ++
          List.intercalate (str ", ")
            ((jsSort sortIdentifiersCmp ids).map (fun id => formatIdentifier id ito)) ++
          str " \x7d from " ++ [if prefs.useSingleQuotes then 39 else 34] ++ src ++
          [if prefs.useSingleQuotes then 39 else 34, 59])) ∧
    (∀ (src txt : Str) (d n2 : ImportIdentifier) (rest : List ImportIdentifier) (ito : Bool)
      (prefs : FormattingPreferences),
      generateImportStatement ⟨src, txt, ImportType.defaultImport, d :: n2 :: rest, ito⟩
          prefs =
        Except.ok (str "import " ++ (if ito then str "type " else []) ++
          formatIdentifier d ito ++ str ", \x7b " ++
          List.intercalate (str ", ")
            ((jsSort sortIdentifiersCmp (n2 :: rest)).map (fun id => formatIdentifier id ito)) ++
          str " \x7d from " ++ [if prefs.useSingleQuotes then 39 else 34] ++ src ++
          [if prefs.useSingleQuotes then 39 else 34, 59])) ∧
    (detectFormattingPreferences [] (some (str "import \x7b a, b, \x7d from 'm';")) =
      ⟨true, false⟩ ∧
     generateImportStatement
       ⟨str "m", str "import \x7b a, b, \x7d from 'm';", ImportType.named,
        [⟨str "a", none, none⟩, ⟨str "b", none, none⟩], false⟩ ⟨true, false⟩ =
       Except.ok (str "import \x7b a, b \x7d from 'm';") ∧
     generateImportStatement
       ⟨str "m", str "import d, \x7b a, b, \x7d from 'm';", ImportType.defaultImport,
        [⟨str "d", none, none⟩, ⟨str "a", none, none⟩, ⟨str "b", none, none⟩],
        false⟩ ⟨true, false⟩ =
       Except.ok (str "import d, \x7b a, b \x7d from 'm';")) := by
  refine ⟨?_, ?_, ?_, by decide, by rfl, by rfl⟩
  · intro s t
    cases t with
    | none => rfl
    | some t2 =>
      show (if ((hasKwQuote (str "from") 39 t2 || hasKwQuote (str "import") 39 t2) &&
            !(hasKwQuote (str "from") 34 t2 || hasKwQuote (str "import") 34 t2)) = true then
          (⟨true, false⟩ : FormattingPreferences)
        else if ((hasKwQuote (str "from") 34 t2 || hasKwQuote (str "import") 34 t2) &&
            !(hasKwQuote (str "from") 39 t2 || hasKwQuote (str "import") 39 t2)) = true then
          ⟨false, false⟩
        else ⟨true, false⟩).useTrailingComma = false
      split_ifs <;> rfl
  · intro src txt ids ito prefs
    rfl
  · intro src txt d n2 rest ito prefs
    rfl
